import Mathlib

/-!
Verification of the real-time update layer of the PC-kouzi repository:
shallow Lean embeddings of `ChangeDetector` (realtime/ChangeDetector.js),
`PollingService`, `CacheManager` and `RealTimeState` (unnamed source parts),
together with theorems settling the spec claims about them.

JavaScript `Map` objects are embedded as association lists in insertion
order with unique keys; machine time (`Date.now()`) is passed explicitly as
an integer parameter; asynchronous callbacks and timer arming are recorded
as explicit event lists.
-/

set_option maxHeartbeats 1000000

/-- Association-list embedding of a JavaScript `Map` with string keys:
entries in insertion order, at most one entry per key. -/
abbrev JsMap (α : Type) : Type := List (String × α)

namespace JsMap

/-- `map.has(k)`. -/
def mapHas (m : JsMap α) (k : String) : Bool :=
  match m with
  | [] => false
  | p :: t => if p.1 = k then true else mapHas t k

/-- `map.get(k)` (`undefined` becomes `none`). -/
def mapGet (m : JsMap α) (k : String) : Option α :=
  match m with
  | [] => none
  | p :: t => if p.1 = k then some p.2 else mapGet t k

/-- `map.set(k, v)`: overwrite in place when the key exists (keeping its
insertion position), otherwise append at the end. -/
def mapSet (m : JsMap α) (k : String) (v : α) : JsMap α :=
  match m with
  | [] => [(k, v)]
  | p :: t => if p.1 = k then (k, v) :: t else p :: mapSet t k v

/-- `map.delete(k)`. -/
def mapDelete (m : JsMap α) (k : String) : JsMap α :=
  match m with
  | [] => []
  | p :: t => if p.1 = k then mapDelete t k else p :: mapDelete t k

/-- The key list of a map, in insertion order. -/
def keysOf (m : JsMap α) : List String :=
  m.map Prod.fst

theorem mapHas_iff_mem_keysOf (m : JsMap α) (k : String) :
    mapHas m k = true ↔ k ∈ keysOf m := by
  induction m with
  | nil => simp [mapHas, keysOf]
  | cons p t ih =>
    by_cases hk : p.1 = k
    · simp [mapHas, keysOf, hk]
    · rw [show mapHas (p :: t) k = mapHas t k by simp [mapHas, hk]]
      rw [show keysOf (p :: t) = p.1 :: keysOf t from rfl, List.mem_cons, ih]
      constructor
      · exact Or.inr
      · rintro (h | h)
        · exact absurd h.symm hk
        · exact h

theorem mapHas_eq_false_iff (m : JsMap α) (k : String) :
    mapHas m k = false ↔ k ∉ keysOf m := by
  constructor
  · intro h hc
    rw [← mapHas_iff_mem_keysOf] at hc
    rw [h] at hc
    exact Bool.noConfusion hc
  · intro h
    cases hh : mapHas m k
    · rfl
    · exact absurd ((mapHas_iff_mem_keysOf m k).mp hh) h

theorem mapGet_isSome_iff_mapHas (m : JsMap α) (k : String) :
    (mapGet m k).isSome = mapHas m k := by
  induction m with
  | nil => simp [mapGet, mapHas]
  | cons p t ih =>
    by_cases hk : p.1 = k
    · simp [mapGet, mapHas, hk]
    · simp [mapGet, mapHas, hk, ih]

theorem mapGet_eq_none_of_not_mapHas (m : JsMap α) (k : String)
    (h : mapHas m k = false) : mapGet m k = none := by
  have := mapGet_isSome_iff_mapHas m k
  rw [h] at this
  cases hg : mapGet m k
  · rfl
  · rw [hg] at this
    simp at this

theorem keysOf_mapSet (m : JsMap α) (k : String) (v : α) :
    keysOf (mapSet m k v) = if mapHas m k then keysOf m else keysOf m ++ [k] := by
  induction m with
  | nil => simp [mapSet, mapHas, keysOf]
  | cons p t ih =>
    by_cases hk : p.1 = k
    · simp [mapSet, mapHas, keysOf, hk]
    · by_cases ht : mapHas t k
      · simp [mapSet, mapHas, keysOf, hk, ht] at ih ⊢
        simpa [keysOf] using ih
      · have ht' : mapHas t k = false := by
          cases hx : mapHas t k
          · rfl
          · exact absurd hx ht
        simp [mapSet, mapHas, keysOf, hk, ht'] at ih ⊢
        simpa [keysOf] using ih

theorem nodup_keysOf_mapSet (m : JsMap α) (k : String) (v : α)
    (h : (keysOf m).Nodup) : (keysOf (mapSet m k v)).Nodup := by
  rw [keysOf_mapSet]
  by_cases hh : mapHas m k
  · simpa [hh] using h
  · have h' : mapHas m k = false := by
      cases hx : mapHas m k
      · rfl
      · exact absurd hx hh
    have hnot : k ∉ keysOf m := (mapHas_eq_false_iff m k).mp h'
    simp [h', List.nodup_append, h, hnot]

theorem mapGet_mapSet_self (m : JsMap α) (k : String) (v : α) :
    mapGet (mapSet m k v) k = some v := by
  induction m with
  | nil => simp [mapSet, mapGet]
  | cons p t ih =>
    by_cases hk : p.1 = k
    · simp [mapSet, mapGet, hk]
    · simp [mapSet, mapGet, hk, ih]

theorem pair_eq_of_nodup_keys (m : JsMap α) (h : (keysOf m).Nodup)
    (e e' : String × α) (he : e ∈ m) (he' : e' ∈ m) (hk : e.1 = e'.1) :
    e = e' := by
  induction m with
  | nil => cases he
  | cons p t ih =>
    have hnd : p.1 ∉ keysOf t ∧ (keysOf t).Nodup := by
      simpa [keysOf, List.nodup_cons] using h
    rcases List.mem_cons.mp he with rfl | hme
    · rcases List.mem_cons.mp he' with rfl | hme'
      · rfl
      · exact absurd (hk ▸ List.mem_map.mpr ⟨e', hme', rfl⟩) hnd.1
    · rcases List.mem_cons.mp he' with rfl | hme'
      · exact absurd (hk ▸ List.mem_map.mpr ⟨e, hme, rfl⟩) hnd.1
      · exact ih hnd.2 hme hme'

theorem mapGet_eq_some_of_mem (m : JsMap α) (h : (keysOf m).Nodup)
    (e : String × α) (he : e ∈ m) : mapGet m e.1 = some e.2 := by
  induction m with
  | nil => cases he
  | cons p t ih =>
    have hnd : p.1 ∉ keysOf t ∧ (keysOf t).Nodup := by
      simpa [keysOf, List.nodup_cons] using h
    rcases List.mem_cons.mp he with rfl | hme
    · simp [mapGet]
    · have hne : p.1 ≠ e.1 := by
        intro hc
        exact hnd.1 (hc ▸ List.mem_map.mpr ⟨e, hme, rfl⟩)
      simp [mapGet, hne, ih hnd.2 hme]

theorem mem_of_mapGet_eq_some (m : JsMap α) (k : String) (v : α)
    (h : mapGet m k = some v) : (k, v) ∈ m := by
  induction m with
  | nil => simp [mapGet] at h
  | cons p t ih =>
    obtain ⟨a, b⟩ := p
    by_cases hk : a = k
    · simp [mapGet, hk] at h
      subst hk
      subst h
      exact List.mem_cons_self _ _
    · simp [mapGet, hk] at h
      exact List.mem_cons_of_mem _ (ih h)

theorem mapHas_of_mapGet_eq_some (m : JsMap α) (k : String) (v : α)
    (h : mapGet m k = some v) : mapHas m k = true := by
  have h2 := mapGet_isSome_iff_mapHas m k
  rw [h] at h2
  exact h2.symm

end JsMap

open JsMap

namespace ChangeDetector

/-- The configured behaviour of a `ChangeDetector` instance over items of
type `ι`:
`getKey` embeds `getItemKey` (the join of the configured `keyFields`
values into one string key), and `itemsEqual` embeds `areItemsEqual`
(custom `compareFunction`, or deep equality modulo `ignoreFields`).
Both are opaque item-level functions in the source (they depend on the
item's JSON shape), so they are carried as parameters of the detector. -/
structure Detector (ι : Type) where
  getKey : ι → String
  itemsEqual : ι → ι → Bool

/-- One entry of the `added`/`removed`/`unchanged` lists:
`{key, data, position}`. -/
structure ChangeEntry (ι : Type) where
  key : String
  data : ι
  position : Int
  deriving DecidableEq, Repr

/-- One entry of the `updated` list: `{key, old, new, position}`.
The field-level diff payload (`changes`, from `getSpecificChanges`) is a
display detail of the JSON shape and is not modelled; no claim refers
to it. -/
structure UpdateEntry (ι : Type) where
  key : String
  old : ι
  new : ι
  position : Int
  deriving DecidableEq, Repr

/-- The `summary` statistics block of a `ChangeSet`. -/
structure Summary where
  totalAdded : Nat
  totalUpdated : Nat
  totalRemoved : Nat
  totalUnchanged : Nat
  oldTotal : Nat
  newTotal : Nat
  deriving DecidableEq, Repr

/-- The result object of `detectChanges`. -/
structure ChangeSet (ι : Type) where
  hasChanges : Bool
  added : List (ChangeEntry ι)
  updated : List (UpdateEntry ι)
  removed : List (ChangeEntry ι)
  unchanged : List (ChangeEntry ι)
  summary : Summary
  deriving DecidableEq, Repr

/-- Helper for `findItemPosition`: linear scan carrying the current index. -/
def findItemPositionFrom (d : Detector ι) (i : Int) :
    List ι → String → Int
  | [], _ => -1
  | x :: xs, key =>
    if d.getKey x = key then i else findItemPositionFrom d (i + 1) xs key

/-- `findItemPosition(data, key)`: index of the first item whose key is
`key`, `-1` when absent. -/
def findItemPosition (d : Detector ι) (data : List ι) (key : String) : Int :=
  findItemPositionFrom d 0 data key

/-- `buildDataMap(data)`: fold the item list into a key→item `Map`,
skipping items whose generated key is falsy (the empty string). -/
def buildDataMap (d : Detector ι) (data : List ι) : JsMap ι :=
  data.foldl
    (fun m item =>
      let key := d.getKey item
      if key ≠ "" then mapSet m key item else m)
    []

/-- The all-empty `changes` object `detectChanges` starts from (with the
collection totals recorded in `summary`). -/
def initChanges (oldData newData : List ι) : ChangeSet ι :=
  { hasChanges := false
    added := []
    updated := []
    removed := []
    unchanged := []
    summary :=
      { totalAdded := 0
        totalUpdated := 0
        totalRemoved := 0
        totalUnchanged := 0
        oldTotal := oldData.length
        newTotal := newData.length } }

/-- Body of the first loop of `detectChanges` (over the new map): classify
one new entry as added, updated or unchanged. -/
def processNewEntry (d : Detector ι) (oldMap : JsMap ι) (newData : List ι)
    (cs : ChangeSet ι) (e : String × ι) : ChangeSet ι :=
  match mapGet oldMap e.1 with
  | none =>
    { cs with
      added := cs.added ++ [⟨e.1, e.2, findItemPosition d newData e.1⟩]
      hasChanges := true }
  | some oldItem =>
    if d.itemsEqual oldItem e.2 then
      { cs with
        unchanged := cs.unchanged ++ [⟨e.1, e.2, findItemPosition d newData e.1⟩] }
    else
      { cs with
        updated := cs.updated ++ [⟨e.1, oldItem, e.2, findItemPosition d newData e.1⟩]
        hasChanges := true }

/-- Body of the second loop of `detectChanges` (over the old map): an old
entry whose key is absent from the new map is removed. -/
def processOldEntry (d : Detector ι) (newMap : JsMap ι) (oldData : List ι)
    (cs : ChangeSet ι) (e : String × ι) : ChangeSet ι :=
  if mapHas newMap e.1 then cs
  else
    { cs with
      removed := cs.removed ++ [⟨e.1, e.2, findItemPosition d oldData e.1⟩]
      hasChanges := true }

/-- `detectChanges(oldData, newData)`: build both maps, classify every new
entry, collect removed old entries, then fill in the summary counters. -/
def detectChanges (d : Detector ι) (oldData newData : List ι) : ChangeSet ι :=
  let oldMap := buildDataMap d oldData
  let newMap := buildDataMap d newData
  let cs1 := newMap.foldl (processNewEntry d oldMap newData) (initChanges oldData newData)
  let cs2 := oldMap.foldl (processOldEntry d newMap oldData) cs1
  { cs2 with
    summary :=
      { cs2.summary with
        totalAdded := cs2.added.length
        totalUpdated := cs2.updated.length
        totalRemoved := cs2.removed.length
        totalUnchanged := cs2.unchanged.length } }

/-- Loop body of the fast path: one new entry hits when its key is missing
from the old map or its item compares unequal. -/
def fastLoopHit (d : Detector ι) (oldMap : JsMap ι) (e : String × ι) : Bool :=
  match mapGet oldMap e.1 with
  | none => true
  | some oldItem => !d.itemsEqual oldItem e.2

/-- The fast path `hasChanges(oldData, newData)`: short-circuit on a length
mismatch of the collections, then on a size mismatch of the maps, then scan
the new map for a missing or unequal counterpart. -/
def fastHasChanges (d : Detector ι) (oldData newData : List ι) : Bool :=
  if oldData.length ≠ newData.length then true
  else
    let oldMap := buildDataMap d oldData
    let newMap := buildDataMap d newData
    if oldMap.length ≠ newMap.length then true
    else newMap.any (fastLoopHit d oldMap)

end ChangeDetector

namespace ChangeDetector

/-- Branch predicate of the first `detectChanges` loop: the new entry's key
is absent from the old map (the entry is added). -/
def addCase (oldMap : JsMap ι) (e : String × ι) : Bool :=
  (mapGet oldMap e.1).isNone

/-- Branch predicate of the first `detectChanges` loop: present in the old
map but not equal (the entry is updated). -/
def updCase (d : Detector ι) (oldMap : JsMap ι) (e : String × ι) : Bool :=
  match mapGet oldMap e.1 with
  | none => false
  | some o => !d.itemsEqual o e.2

/-- Branch predicate of the first `detectChanges` loop: present in the old
map and equal (the entry is unchanged). -/
def unchCase (d : Detector ι) (oldMap : JsMap ι) (e : String × ι) : Bool :=
  match mapGet oldMap e.1 with
  | none => false
  | some o => d.itemsEqual o e.2

/-- Branch predicate of the second `detectChanges` loop: the old entry's
key is absent from the new map (the entry is removed). -/
def remCase (newMap : JsMap ι) (e : String × ι) : Bool :=
  !mapHas newMap e.1

theorem fold1_added (d : Detector ι) (oldMap : JsMap ι) (newData : List ι)
    (l : JsMap ι) (cs : ChangeSet ι) :
    (l.foldl (processNewEntry d oldMap newData) cs).added =
      cs.added ++ (l.filter (addCase oldMap)).map
        (fun e => ChangeEntry.mk e.1 e.2 (findItemPosition d newData e.1)) := by
  induction l generalizing cs with
  | nil => simp
  | cons e t ih =>
    rw [List.foldl_cons, ih]
    cases hg : mapGet oldMap e.1 with
    | none => simp [processNewEntry, addCase, hg, List.filter_cons]
    | some o =>
      cases heq : d.itemsEqual o e.2 <;>
        simp [processNewEntry, addCase, hg, heq, List.filter_cons]

theorem fold1_updated (d : Detector ι) (oldMap : JsMap ι) (newData : List ι)
    (l : JsMap ι) (cs : ChangeSet ι) :
    (l.foldl (processNewEntry d oldMap newData) cs).updated =
      cs.updated ++ (l.filter (updCase d oldMap)).map
        (fun e => UpdateEntry.mk e.1 ((mapGet oldMap e.1).getD e.2) e.2
          (findItemPosition d newData e.1)) := by
  induction l generalizing cs with
  | nil => simp
  | cons e t ih =>
    rw [List.foldl_cons, ih]
    cases hg : mapGet oldMap e.1 with
    | none => simp [processNewEntry, updCase, hg, List.filter_cons]
    | some o =>
      cases heq : d.itemsEqual o e.2 <;>
        simp [processNewEntry, updCase, hg, heq, List.filter_cons]

theorem fold1_unchanged (d : Detector ι) (oldMap : JsMap ι) (newData : List ι)
    (l : JsMap ι) (cs : ChangeSet ι) :
    (l.foldl (processNewEntry d oldMap newData) cs).unchanged =
      cs.unchanged ++ (l.filter (unchCase d oldMap)).map
        (fun e => ChangeEntry.mk e.1 e.2 (findItemPosition d newData e.1)) := by
  induction l generalizing cs with
  | nil => simp
  | cons e t ih =>
    rw [List.foldl_cons, ih]
    cases hg : mapGet oldMap e.1 with
    | none => simp [processNewEntry, unchCase, hg, List.filter_cons]
    | some o =>
      cases heq : d.itemsEqual o e.2 <;>
        simp [processNewEntry, unchCase, hg, heq, List.filter_cons]

theorem fold1_removed (d : Detector ι) (oldMap : JsMap ι) (newData : List ι)
    (l : JsMap ι) (cs : ChangeSet ι) :
    (l.foldl (processNewEntry d oldMap newData) cs).removed = cs.removed := by
  induction l generalizing cs with
  | nil => simp
  | cons e t ih =>
    rw [List.foldl_cons, ih]
    cases hg : mapGet oldMap e.1 with
    | none => simp [processNewEntry, hg]
    | some o =>
      cases heq : d.itemsEqual o e.2 <;> simp [processNewEntry, hg, heq]

theorem fold1_hasChanges (d : Detector ι) (oldMap : JsMap ι) (newData : List ι)
    (l : JsMap ι) (cs : ChangeSet ι) :
    (l.foldl (processNewEntry d oldMap newData) cs).hasChanges =
      (cs.hasChanges || l.any fun e => addCase oldMap e || updCase d oldMap e) := by
  induction l generalizing cs with
  | nil => simp
  | cons e t ih =>
    rw [List.foldl_cons, ih]
    cases hg : mapGet oldMap e.1 with
    | none => simp [processNewEntry, addCase, updCase, hg]
    | some o =>
      cases heq : d.itemsEqual o e.2 <;>
        simp [processNewEntry, addCase, updCase, hg, heq, Bool.or_assoc]

theorem fold2_removed (d : Detector ι) (newMap : JsMap ι) (oldData : List ι)
    (l : JsMap ι) (cs : ChangeSet ι) :
    (l.foldl (processOldEntry d newMap oldData) cs).removed =
      cs.removed ++ (l.filter (remCase newMap)).map
        (fun e => ChangeEntry.mk e.1 e.2 (findItemPosition d oldData e.1)) := by
  induction l generalizing cs with
  | nil => simp
  | cons e t ih =>
    rw [List.foldl_cons, ih]
    cases hh : mapHas newMap e.1 <;>
      simp [processOldEntry, remCase, hh, List.filter_cons]

theorem fold2_added (d : Detector ι) (newMap : JsMap ι) (oldData : List ι)
    (l : JsMap ι) (cs : ChangeSet ι) :
    (l.foldl (processOldEntry d newMap oldData) cs).added = cs.added := by
  induction l generalizing cs with
  | nil => simp
  | cons e t ih =>
    rw [List.foldl_cons, ih]
    cases hh : mapHas newMap e.1 <;> simp [processOldEntry, hh]

theorem fold2_updated (d : Detector ι) (newMap : JsMap ι) (oldData : List ι)
    (l : JsMap ι) (cs : ChangeSet ι) :
    (l.foldl (processOldEntry d newMap oldData) cs).updated = cs.updated := by
  induction l generalizing cs with
  | nil => simp
  | cons e t ih =>
    rw [List.foldl_cons, ih]
    cases hh : mapHas newMap e.1 <;> simp [processOldEntry, hh]

theorem fold2_unchanged (d : Detector ι) (newMap : JsMap ι) (oldData : List ι)
    (l : JsMap ι) (cs : ChangeSet ι) :
    (l.foldl (processOldEntry d newMap oldData) cs).unchanged = cs.unchanged := by
  induction l generalizing cs with
  | nil => simp
  | cons e t ih =>
    rw [List.foldl_cons, ih]
    cases hh : mapHas newMap e.1 <;> simp [processOldEntry, hh]

theorem fold2_hasChanges (d : Detector ι) (newMap : JsMap ι) (oldData : List ι)
    (l : JsMap ι) (cs : ChangeSet ι) :
    (l.foldl (processOldEntry d newMap oldData) cs).hasChanges =
      (cs.hasChanges || l.any (remCase newMap)) := by
  induction l generalizing cs with
  | nil => simp
  | cons e t ih =>
    rw [List.foldl_cons, ih]
    cases hh : mapHas newMap e.1 <;>
      simp [processOldEntry, remCase, hh, Bool.or_assoc]

theorem detectChanges_added (d : Detector ι) (oldData newData : List ι) :
    (detectChanges d oldData newData).added =
      (((buildDataMap d newData).filter (addCase (buildDataMap d oldData))).map
        fun e => ChangeEntry.mk e.1 e.2 (findItemPosition d newData e.1)) := by
  unfold detectChanges
  simp [fold2_added, fold1_added, initChanges]

theorem detectChanges_updated (d : Detector ι) (oldData newData : List ι) :
    (detectChanges d oldData newData).updated =
      (((buildDataMap d newData).filter (updCase d (buildDataMap d oldData))).map
        fun e => UpdateEntry.mk e.1 ((mapGet (buildDataMap d oldData) e.1).getD e.2)
          e.2 (findItemPosition d newData e.1)) := by
  unfold detectChanges
  simp [fold2_updated, fold1_updated, initChanges]

theorem detectChanges_unchanged (d : Detector ι) (oldData newData : List ι) :
    (detectChanges d oldData newData).unchanged =
      (((buildDataMap d newData).filter (unchCase d (buildDataMap d oldData))).map
        fun e => ChangeEntry.mk e.1 e.2 (findItemPosition d newData e.1)) := by
  unfold detectChanges
  simp [fold2_unchanged, fold1_unchanged, initChanges]

theorem detectChanges_removed (d : Detector ι) (oldData newData : List ι) :
    (detectChanges d oldData newData).removed =
      (((buildDataMap d oldData).filter (remCase (buildDataMap d newData))).map
        fun e => ChangeEntry.mk e.1 e.2 (findItemPosition d oldData e.1)) := by
  unfold detectChanges
  simp [fold2_removed, fold1_removed, initChanges]

theorem detectChanges_hasChanges (d : Detector ι) (oldData newData : List ι) :
    (detectChanges d oldData newData).hasChanges =
      (((buildDataMap d newData).any fun e =>
          addCase (buildDataMap d oldData) e || updCase d (buildDataMap d oldData) e) ||
        (buildDataMap d oldData).any (remCase (buildDataMap d newData))) := by
  unfold detectChanges
  simp [fold2_hasChanges, fold1_hasChanges, initChanges]

theorem nodup_keysOf_buildFold (d : Detector ι) (data : List ι) (m : JsMap ι)
    (h : (keysOf m).Nodup) :
    (keysOf (data.foldl
      (fun m item =>
        let key := d.getKey item
        if key ≠ "" then mapSet m key item else m) m)).Nodup := by
  induction data generalizing m with
  | nil => simpa using h
  | cons x t ih =>
    rw [List.foldl_cons]
    refine ih _ ?_
    by_cases hk : d.getKey x = ""
    · simpa [hk] using h
    · simpa [hk] using nodup_keysOf_mapSet m (d.getKey x) x h

theorem nodup_keysOf_buildDataMap (d : Detector ι) (data : List ι) :
    (keysOf (buildDataMap d data)).Nodup :=
  nodup_keysOf_buildFold d data [] (by simp [keysOf])

end ChangeDetector

namespace ChangeDetector

/-- Keys of the `added` partition of a `ChangeSet`. -/
def addedKeys (cs : ChangeSet ι) : List String := cs.added.map ChangeEntry.key

/-- Keys of the `updated` partition of a `ChangeSet`. -/
def updatedKeys (cs : ChangeSet ι) : List String := cs.updated.map UpdateEntry.key

/-- Keys of the `removed` partition of a `ChangeSet`. -/
def removedKeys (cs : ChangeSet ι) : List String := cs.removed.map ChangeEntry.key

/-- Keys of the `unchanged` partition of a `ChangeSet`. -/
def unchangedKeys (cs : ChangeSet ι) : List String := cs.unchanged.map ChangeEntry.key

theorem addedKeys_detectChanges (d : Detector ι) (oldData newData : List ι) :
    addedKeys (detectChanges d oldData newData) =
      ((buildDataMap d newData).filter (addCase (buildDataMap d oldData))).map Prod.fst := by
  rw [addedKeys, detectChanges_added, List.map_map]
  rfl

theorem updatedKeys_detectChanges (d : Detector ι) (oldData newData : List ι) :
    updatedKeys (detectChanges d oldData newData) =
      ((buildDataMap d newData).filter (updCase d (buildDataMap d oldData))).map Prod.fst := by
  rw [updatedKeys, detectChanges_updated, List.map_map]
  rfl

theorem unchangedKeys_detectChanges (d : Detector ι) (oldData newData : List ι) :
    unchangedKeys (detectChanges d oldData newData) =
      ((buildDataMap d newData).filter (unchCase d (buildDataMap d oldData))).map Prod.fst := by
  rw [unchangedKeys, detectChanges_unchanged, List.map_map]
  rfl

theorem removedKeys_detectChanges (d : Detector ι) (oldData newData : List ι) :
    removedKeys (detectChanges d oldData newData) =
      ((buildDataMap d oldData).filter (remCase (buildDataMap d newData))).map Prod.fst := by
  rw [removedKeys, detectChanges_removed, List.map_map]
  rfl

theorem mem_filter_keys {m : JsMap ι} {p : String × ι → Bool} {k : String} :
    k ∈ (m.filter p).map Prod.fst ↔ ∃ e, e ∈ m ∧ e.1 = k ∧ p e = true := by
  constructor
  · intro h
    obtain ⟨e, he, hk⟩ := List.mem_map.mp h
    obtain ⟨hm, hp⟩ := List.mem_filter.mp he
    exact ⟨e, hm, hk, hp⟩
  · rintro ⟨e, hm, hk, hp⟩
    exact List.mem_map.mpr ⟨e, List.mem_filter.mpr ⟨hm, hp⟩, hk⟩

theorem filter_keys_sub_keysOf {m : JsMap ι} {p : String × ι → Bool} {k : String}
    (h : k ∈ (m.filter p).map Prod.fst) : k ∈ keysOf m := by
  obtain ⟨e, hm, hk, _⟩ := mem_filter_keys.mp h
  exact hk ▸ List.mem_map.mpr ⟨e, hm, rfl⟩

theorem nodup_filter_keys {m : JsMap ι} {p : String × ι → Bool}
    (h : (keysOf m).Nodup) : ((m.filter p).map Prod.fst).Nodup := by
  have h' : (m.map Prod.fst).Nodup := h
  have hs : List.Sublist ((m.filter p).map Prod.fst) (m.map Prod.fst) :=
    (List.filter_sublist m).map Prod.fst
  exact hs.nodup h'

theorem map_filter_ne_nil {β γ : Type _} (l : List β) (p : β → Bool) (f : β → γ) :
    ((l.filter p).map f ≠ []) ↔ ∃ x, x ∈ l ∧ p x = true := by
  constructor
  · intro h
    obtain ⟨y, hy⟩ := List.exists_mem_of_ne_nil _ h
    obtain ⟨x, hx, rfl⟩ := List.mem_map.mp hy
    obtain ⟨hxl, hxp⟩ := List.mem_filter.mp hx
    exact ⟨x, hxl, hxp⟩
  · rintro ⟨x, hx, hp⟩
    exact List.ne_nil_of_mem (List.mem_map.mpr ⟨x, List.mem_filter.mpr ⟨hx, hp⟩, rfl⟩)

theorem mem_keysOf_iff {m : JsMap ι} {k : String} :
    k ∈ keysOf m ↔ ∃ e, e ∈ m ∧ e.1 = k := by
  simp [keysOf, List.mem_map]

/-- C1: for every pair of input collections, the `ChangeSet` returned by
`detectChanges` partitions `old_keys ∪ new_keys` completely and disjointly
into added, updated, removed and unchanged; `hasChanges` is true iff one of
added, updated, removed is non-empty; and on two empty collections every
partition is empty and `hasChanges` is false. -/
theorem C1_detectChanges_partition {ι : Type} (d : Detector ι)
    (oldData newData : List ι) :
    ((addedKeys (detectChanges d oldData newData) ++
        updatedKeys (detectChanges d oldData newData) ++
        removedKeys (detectChanges d oldData newData) ++
        unchangedKeys (detectChanges d oldData newData)).Nodup ∧
      (∀ k, k ∈ addedKeys (detectChanges d oldData newData) ++
          updatedKeys (detectChanges d oldData newData) ++
          removedKeys (detectChanges d oldData newData) ++
          unchangedKeys (detectChanges d oldData newData) ↔
        (k ∈ keysOf (buildDataMap d oldData) ∨ k ∈ keysOf (buildDataMap d newData)))) ∧
    ((detectChanges d oldData newData).hasChanges = true ↔
      ((detectChanges d oldData newData).added ≠ [] ∨
        (detectChanges d oldData newData).updated ≠ [] ∨
        (detectChanges d oldData newData).removed ≠ [])) ∧
    ((detectChanges d ([] : List ι) []).added = [] ∧
      (detectChanges d ([] : List ι) []).updated = [] ∧
      (detectChanges d ([] : List ι) []).removed = [] ∧
      (detectChanges d ([] : List ι) []).unchanged = [] ∧
      (detectChanges d ([] : List ι) []).hasChanges = false) := by
  have hndOld : (keysOf (buildDataMap d oldData)).Nodup :=
    nodup_keysOf_buildDataMap d oldData
  have hndNew : (keysOf (buildDataMap d newData)).Nodup :=
    nodup_keysOf_buildDataMap d newData
  rw [addedKeys_detectChanges, updatedKeys_detectChanges,
    removedKeys_detectChanges, unchangedKeys_detectChanges]
  set oldMap := buildDataMap d oldData
  set newMap := buildDataMap d newData
  set A := (newMap.filter (addCase oldMap)).map Prod.fst with hA
  set U := (newMap.filter (updCase d oldMap)).map Prod.fst with hU
  set R := (oldMap.filter (remCase newMap)).map Prod.fst with hR
  set C := (newMap.filter (unchCase d oldMap)).map Prod.fst with hC
  have hAU : ∀ k, k ∈ A → k ∈ U → False := by
    intro k hkA hkU
    obtain ⟨e, _, hek, hpe⟩ := mem_filter_keys.mp hkA
    obtain ⟨e', _, hek', hpe'⟩ := mem_filter_keys.mp hkU
    simp only [addCase, Option.isNone_iff_eq_none] at hpe
    rw [hek] at hpe
    simp only [updCase] at hpe'
    rw [hek', hpe] at hpe'
    simp at hpe'
  have hAC : ∀ k, k ∈ A → k ∈ C → False := by
    intro k hkA hkC
    obtain ⟨e, _, hek, hpe⟩ := mem_filter_keys.mp hkA
    obtain ⟨e', _, hek', hpe'⟩ := mem_filter_keys.mp hkC
    simp only [addCase, Option.isNone_iff_eq_none] at hpe
    rw [hek] at hpe
    simp only [unchCase] at hpe'
    rw [hek', hpe] at hpe'
    simp at hpe'
  have hUC : ∀ k, k ∈ U → k ∈ C → False := by
    intro k hkU hkC
    obtain ⟨e, heM, hek, hpe⟩ := mem_filter_keys.mp hkU
    obtain ⟨e', heM', hek', hpe'⟩ := mem_filter_keys.mp hkC
    have hee : e = e' :=
      pair_eq_of_nodup_keys newMap hndNew e e' heM heM' (by rw [hek, hek'])
    subst hee
    cases hg : mapGet oldMap e.1 with
    | none =>
      simp only [updCase, hg] at hpe
      exact Bool.noConfusion hpe
    | some o =>
      simp only [updCase, hg, Bool.not_eq_true'] at hpe
      simp only [unchCase, hg] at hpe'
      rw [hpe'] at hpe
      exact Bool.noConfusion hpe
  have hRnew : ∀ k, k ∈ R → k ∉ keysOf newMap := by
    intro k hkR hmem
    obtain ⟨e, _, hek, hpe⟩ := mem_filter_keys.mp hkR
    simp only [remCase, Bool.not_eq_true'] at hpe
    rw [hek] at hpe
    rw [(mapHas_iff_mem_keysOf newMap k).mpr hmem] at hpe
    exact Bool.noConfusion hpe
  have hAR : ∀ k, k ∈ A → k ∈ R → False := fun k hkA hkR =>
    hRnew k hkR (filter_keys_sub_keysOf hkA)
  have hUR : ∀ k, k ∈ U → k ∈ R → False := fun k hkU hkR =>
    hRnew k hkR (filter_keys_sub_keysOf hkU)
  have hCR : ∀ k, k ∈ C → k ∈ R → False := fun k hkC hkR =>
    hRnew k hkR (filter_keys_sub_keysOf hkC)
  refine ⟨⟨?_, ?_⟩, ?_, rfl, rfl, rfl, rfl, rfl⟩
  · rw [List.append_assoc, List.append_assoc, List.nodup_append,
      List.nodup_append, List.nodup_append]
    refine ⟨nodup_filter_keys hndNew,
      ⟨nodup_filter_keys hndNew,
        ⟨nodup_filter_keys hndOld, nodup_filter_keys hndNew, ?_⟩, ?_⟩, ?_⟩
    · intro k hkR hkC
      exact hCR k hkC hkR
    · intro k hkU hk
      rcases List.mem_append.mp hk with hkR | hkC
      · exact hUR k hkU hkR
      · exact hUC k hkU hkC
    · intro k hkA hk
      rcases List.mem_append.mp hk with hkU | hk
      · exact hAU k hkA hkU
      rcases List.mem_append.mp hk with hkR | hkC
      · exact hAR k hkA hkR
      · exact hAC k hkA hkC
  · intro k
    rw [List.append_assoc, List.append_assoc, List.mem_append,
      List.mem_append, List.mem_append]
    constructor
    · rintro (hk | hk | hk | hk)
      · exact Or.inr (filter_keys_sub_keysOf hk)
      · exact Or.inr (filter_keys_sub_keysOf hk)
      · exact Or.inl (filter_keys_sub_keysOf hk)
      · exact Or.inr (filter_keys_sub_keysOf hk)
    · intro hk
      by_cases hnew : k ∈ keysOf newMap
      · obtain ⟨e, heM, hek⟩ := mem_keysOf_iff.mp hnew
        cases hg : mapGet oldMap e.1 with
        | none =>
          exact Or.inl (mem_filter_keys.mpr
            ⟨e, heM, hek, by simp [addCase, hg]⟩)
        | some o =>
          cases heq : d.itemsEqual o e.2
          · exact Or.inr (Or.inl (mem_filter_keys.mpr
              ⟨e, heM, hek, by simp [updCase, hg, heq]⟩))
          · exact Or.inr (Or.inr (Or.inr (mem_filter_keys.mpr
              ⟨e, heM, hek, by simp [unchCase, hg, heq]⟩)))
      · have hold : k ∈ keysOf oldMap := by
          rcases hk with h | h
          · exact h
          · exact absurd h hnew
        obtain ⟨e, heM, hek⟩ := mem_keysOf_iff.mp hold
        have hhas : mapHas newMap k = false := (mapHas_eq_false_iff newMap k).mpr hnew
        exact Or.inr (Or.inr (Or.inl (mem_filter_keys.mpr
          ⟨e, heM, hek, by simp [remCase, hek, hhas]⟩)))
  · have h1 : (detectChanges d oldData newData).added ≠ [] ↔
        ∃ x, x ∈ newMap ∧ addCase oldMap x = true := by
      rw [detectChanges_added]
      exact map_filter_ne_nil _ _ _
    have h2 : (detectChanges d oldData newData).updated ≠ [] ↔
        ∃ x, x ∈ newMap ∧ updCase d oldMap x = true := by
      rw [detectChanges_updated]
      exact map_filter_ne_nil _ _ _
    have h3 : (detectChanges d oldData newData).removed ≠ [] ↔
        ∃ x, x ∈ oldMap ∧ remCase newMap x = true := by
      rw [detectChanges_removed]
      exact map_filter_ne_nil _ _ _
    rw [detectChanges_hasChanges, h1, h2, h3, Bool.or_eq_true,
      List.any_eq_true, List.any_eq_true]
    simp only [Bool.or_eq_true]
    constructor
    · rintro (⟨e, he, hc | hc⟩ | ⟨e, he, hc⟩)
      · exact Or.inl ⟨e, he, hc⟩
      · exact Or.inr (Or.inl ⟨e, he, hc⟩)
      · exact Or.inr (Or.inr ⟨e, he, hc⟩)
    · rintro (⟨e, he, hc⟩ | ⟨e, he, hc⟩ | ⟨e, he, hc⟩)
      · exact Or.inl ⟨e, he, Or.inl hc⟩
      · exact Or.inl ⟨e, he, Or.inr hc⟩
      · exact Or.inr ⟨e, he, hc⟩

end ChangeDetector

namespace JsMap

theorem mapSet_append (m : JsMap α) (k : String) (v : α)
    (h : mapHas m k = false) : mapSet m k v = m ++ [(k, v)] := by
  induction m with
  | nil => simp [mapSet]
  | cons p t ih =>
    by_cases hk : p.1 = k
    · rw [show mapHas (p :: t) k = true by simp [mapHas, hk]] at h
      exact Bool.noConfusion h
    · have h' : mapHas t k = false := by simpa [mapHas, hk] using h
      simp [mapSet, hk, ih h']

end JsMap

namespace ChangeDetector

theorem fastLoopHit_eq (d : Detector ι) (oldMap : JsMap ι) (e : String × ι) :
    fastLoopHit d oldMap e = (addCase oldMap e || updCase d oldMap e) := by
  cases hg : mapGet oldMap e.1 with
  | none => simp [fastLoopHit, addCase, updCase, hg]
  | some o => simp [fastLoopHit, addCase, updCase, hg]

theorem any_ext {β : Type _} (l : List β) (p q : β → Bool)
    (h : ∀ x, p x = q x) : l.any p = l.any q := by
  induction l with
  | nil => rfl
  | cons x t ih => simp [List.any_cons, h x, ih]

theorem buildFold_clean (d : Detector ι) (data : List ι) (m : JsMap ι)
    (hne : ∀ x ∈ data, d.getKey x ≠ "")
    (hnd : (data.map d.getKey).Nodup)
    (hdisj : ∀ x ∈ data, d.getKey x ∉ keysOf m) :
    data.foldl
      (fun m item =>
        let key := d.getKey item
        if key ≠ "" then mapSet m key item else m) m =
      m ++ data.map (fun x => (d.getKey x, x)) := by
  induction data generalizing m with
  | nil => simp
  | cons x t ih =>
    rw [List.foldl_cons]
    have hx : d.getKey x ≠ "" := hne x (List.mem_cons_self x t)
    have hhas : mapHas m (d.getKey x) = false :=
      (mapHas_eq_false_iff _ _).mpr (hdisj x (List.mem_cons_self x t))
    have hstep :
        (let key := d.getKey x
          if key ≠ "" then mapSet m key x else m) = m ++ [(d.getKey x, x)] := by
      simp only [hx, if_true, ne_eq, not_false_eq_true]
      exact mapSet_append m (d.getKey x) x hhas
    rw [hstep]
    have hndt : (t.map d.getKey).Nodup := (List.nodup_cons.mp hnd).2
    have hxt : d.getKey x ∉ t.map d.getKey := (List.nodup_cons.mp hnd).1
    have hdisj' : ∀ y ∈ t, d.getKey y ∉ keysOf (m ++ [(d.getKey x, x)]) := by
      intro y hy hmem
      rw [show keysOf (m ++ [(d.getKey x, x)]) = keysOf m ++ [d.getKey x] by
        simp [keysOf]] at hmem
      rcases List.mem_append.mp hmem with hmem | hmem
      · exact hdisj y (List.mem_cons_of_mem x hy) hmem
      · rw [List.mem_singleton] at hmem
        exact hxt (hmem ▸ List.mem_map.mpr ⟨y, hy, rfl⟩)
    rw [ih (m ++ [(d.getKey x, x)]) (fun y hy => hne y (List.mem_cons_of_mem x hy))
      hndt hdisj']
    simp

theorem buildDataMap_clean (d : Detector ι) (data : List ι)
    (hne : ∀ x ∈ data, d.getKey x ≠ "")
    (hnd : (data.map d.getKey).Nodup) :
    buildDataMap d data = data.map (fun x => (d.getKey x, x)) := by
  have h := buildFold_clean d data [] hne hnd (by simp [keysOf])
  simpa [buildDataMap] using h

theorem any_addupd_false_sub (d : Detector ι) (oldMap newMap : JsMap ι)
    (h : (newMap.any fun e => addCase oldMap e || updCase d oldMap e) = false) :
    keysOf newMap ⊆ keysOf oldMap := by
  intro k hk
  obtain ⟨e, heM, hek⟩ := mem_keysOf_iff.mp hk
  have hne : ¬ (newMap.any fun e => addCase oldMap e || updCase d oldMap e) = true := by
    rw [h]
    exact Bool.noConfusion
  rw [List.any_eq_true] at hne
  push_neg at hne
  have hfe := hne e heM
  have hadd : addCase oldMap e = false := by
    cases ha : addCase oldMap e
    · rfl
    · exfalso
      exact hfe (by rw [Bool.or_eq_true]; exact Or.inl ha)
  rw [addCase, Option.isNone_eq_false_iff, Option.isSome_iff_exists] at hadd
  obtain ⟨o, ho⟩ := hadd
  rw [← hek]
  exact (mapHas_iff_mem_keysOf oldMap e.1).mp (mapHas_of_mapGet_eq_some oldMap e.1 o ho)

theorem any_rem_false_sub (oldMap newMap : JsMap ι)
    (h : (oldMap.any (remCase newMap)) = false) :
    keysOf oldMap ⊆ keysOf newMap := by
  intro k hk
  obtain ⟨e, heM, hek⟩ := mem_keysOf_iff.mp hk
  have hne : ¬ (oldMap.any (remCase newMap)) = true := by
    rw [h]
    exact Bool.noConfusion
  rw [List.any_eq_true] at hne
  push_neg at hne
  have hfe := hne e heM
  have hhas : mapHas newMap e.1 = true := by
    cases hx : mapHas newMap e.1
    · exact absurd (by rw [remCase, hx]; rfl) hfe
    · rfl
  rw [← hek]
  exact (mapHas_iff_mem_keysOf newMap e.1).mp hhas

theorem rem_false_of_sub (oldMap newMap : JsMap ι)
    (h : keysOf oldMap ⊆ keysOf newMap) :
    oldMap.any (remCase newMap) = false := by
  cases ha : oldMap.any (remCase newMap)
  · rfl
  · exfalso
    obtain ⟨e, heM, hre⟩ := List.any_eq_true.mp ha
    rw [remCase, Bool.not_eq_true'] at hre
    have : e.1 ∈ keysOf newMap := h (List.mem_map.mpr ⟨e, heM, rfl⟩)
    rw [← mapHas_iff_mem_keysOf, hre] at this
    exact Bool.noConfusion this

end ChangeDetector

namespace ChangeDetector

/-- Detector instance over `Nat` items in which every item gets the same
string key `a` and items compare by numeric equality (a degenerate but
legal configuration of `keyFields`). -/
def dupKeyDetector : Detector Nat :=
  { getKey := fun _ => "a", itemsEqual := fun a b => a == b }

/-- C5 counterexample: the claim fails as stated. On the duplicate-key
collections `[1, 1]` and `[1]` the fast path returns true (length
mismatch) while `detectChanges` reports no changes, because both
collections collapse to the same one-entry map. -/
theorem C5_counterexample :
    fastHasChanges dupKeyDetector [1, 1] [1] = true ∧
      (detectChanges dupKeyDetector [1, 1] [1]).hasChanges = false := by
  constructor
  · rfl
  · rfl

/-- C5 (amended): the fast path `hasChanges` agrees with
`detectChanges(...).hasChanges` provided every item of each input
collection has a non-empty key and keys are pairwise distinct within each
collection (so that the key maps are lossless); without that proviso the
fast path may report a change on a length mismatch that the full diff
does not see. -/
theorem C5_fastHasChanges_agrees {ι : Type} (d : Detector ι)
    (oldData newData : List ι)
    (hne1 : ∀ x ∈ oldData, d.getKey x ≠ "")
    (hnd1 : (oldData.map d.getKey).Nodup)
    (hne2 : ∀ x ∈ newData, d.getKey x ≠ "")
    (hnd2 : (newData.map d.getKey).Nodup) :
    fastHasChanges d oldData newData =
      (detectChanges d oldData newData).hasChanges := by
  have hBold := buildDataMap_clean d oldData hne1 hnd1
  have hBnew := buildDataMap_clean d newData hne2 hnd2
  have hndKold : (keysOf (buildDataMap d oldData)).Nodup :=
    nodup_keysOf_buildDataMap d oldData
  have hndKnew : (keysOf (buildDataMap d newData)).Nodup :=
    nodup_keysOf_buildDataMap d newData
  have hlenOld : (buildDataMap d oldData).length = oldData.length := by
    rw [hBold, List.length_map]
  have hlenNew : (buildDataMap d newData).length = newData.length := by
    rw [hBnew, List.length_map]
  have hkeyLenOld : (keysOf (buildDataMap d oldData)).length =
      (buildDataMap d oldData).length := by
    simp [keysOf]
  have hkeyLenNew : (keysOf (buildDataMap d newData)).length =
      (buildDataMap d newData).length := by
    simp [keysOf]
  by_cases h1 : oldData.length = newData.length
  · have h2 : (buildDataMap d oldData).length = (buildDataMap d newData).length := by
      rw [hlenOld, hlenNew, h1]
    have hfast : fastHasChanges d oldData newData =
        (buildDataMap d newData).any (fastLoopHit d (buildDataMap d oldData)) := by
      simp [fastHasChanges, h1, h2]
    rw [hfast, detectChanges_hasChanges,
      any_ext _ _ _ (fastLoopHit_eq d (buildDataMap d oldData))]
    cases hP : (buildDataMap d newData).any
        (fun e => addCase (buildDataMap d oldData) e ||
          updCase d (buildDataMap d oldData) e)
    · have hsub : keysOf (buildDataMap d newData) ⊆ keysOf (buildDataMap d oldData) :=
        any_addupd_false_sub d _ _ hP
      have hsp : List.Subperm (keysOf (buildDataMap d newData))
          (keysOf (buildDataMap d oldData)) :=
        List.subperm_of_subset hndKnew hsub
      have hlen : (keysOf (buildDataMap d oldData)).length ≤
          (keysOf (buildDataMap d newData)).length := by
        rw [hkeyLenOld, hkeyLenNew, h2]
      have hperm := hsp.perm_of_length_le hlen
      have hsub2 : keysOf (buildDataMap d oldData) ⊆ keysOf (buildDataMap d newData) :=
        hperm.symm.subset
      rw [rem_false_of_sub _ _ hsub2]
      rfl
    · rfl
  · have hfast : fastHasChanges d oldData newData = true := by
      simp [fastHasChanges, h1]
    rw [hfast]
    cases hD : (detectChanges d oldData newData).hasChanges
    · exfalso
      rw [detectChanges_hasChanges] at hD
      have hP : ((buildDataMap d newData).any
          fun e => addCase (buildDataMap d oldData) e ||
            updCase d (buildDataMap d oldData) e) = false := by
        cases hx : (buildDataMap d newData).any
            fun e => addCase (buildDataMap d oldData) e ||
              updCase d (buildDataMap d oldData) e
        · rfl
        · rw [hx] at hD
          simp at hD
      have hR : ((buildDataMap d oldData).any
          (remCase (buildDataMap d newData))) = false := by
        rw [hP] at hD
        simpa using hD
      have hs1 := any_addupd_false_sub d _ _ hP
      have hs2 := any_rem_false_sub _ _ hR
      have e1 : List.Subperm (keysOf (buildDataMap d newData))
          (keysOf (buildDataMap d oldData)) :=
        List.subperm_of_subset hndKnew hs1
      have e2 : List.Subperm (keysOf (buildDataMap d oldData))
          (keysOf (buildDataMap d newData)) :=
        List.subperm_of_subset hndKold hs2
      have hone : oldData.length = newData.length := by
        have hanti := le_antisymm e2.length_le e1.length_le
        rw [hkeyLenOld, hkeyLenNew, hlenOld, hlenNew] at hanti
        exact hanti
      exact h1 hone
    · rfl

/-- C5 witness: the amended equivalence applied at a concrete clean
instance. -/
theorem C5_fastHasChanges_agrees_witness :
    fastHasChanges dupKeyDetector [1] [1] =
      (detectChanges dupKeyDetector [1] [1]).hasChanges :=
  C5_fastHasChanges_agrees dupKeyDetector [1] [1]
    (by decide) (by decide) (by decide) (by decide)

end ChangeDetector

namespace PollingService

/-- The `pollingConfig` block of `PollingService` (constructor defaults:
30000 / 10000 / 60000 / 5000 / 3; a falsy option falls back to the
default, so every field is positive in any reachable configuration). -/
structure PollConfig where
  normalInterval : Nat
  activeInterval : Nat
  backgroundInterval : Nat
  retryDelay : Nat
  maxRetries : Nat
  deriving DecidableEq, Repr

/-- The mutable `state` record of `PollingService`, over an abstract error
type `ε`. `timerId` is `some id` exactly when a `setTimeout` handle is
pending. Times are externally supplied `Date.now()` values. -/
structure PollState (ε : Type) where
  isActive : Bool
  currentInterval : Nat
  retryCount : Nat
  isOnline : Bool
  isVisible : Bool
  isUserActive : Bool
  timerId : Option Nat
  lastFetchTime : Option Int
  lastSuccessTime : Option Int
  lastError : Option ε
  deriving DecidableEq, Repr

/-- Observable effects of one polling cycle, over error type `ε` and fetch
payload type `δ`: invoked callbacks, awaited delays, and armed timers. -/
inductive PollEvent (ε δ : Type) where
  | successCb (data : δ)
  | errorCb (e : ε) (reason : String)
  | delayed (ms : Nat)
  | scheduled (ms : Nat)
  deriving DecidableEq, Repr

/-- `pause()`: deactivate and cancel the pending timer; everything else is
left untouched. -/
def pause (st : PollState ε) : PollState ε :=
  { st with isActive := false, timerId := none }

/-- `resume()`: if inactive, reactivate. The polling cycle that `resume`
immediately starts is modelled separately by `executePollingCycle`. -/
def resume (st : PollState ε) : PollState ε :=
  if !st.isActive then { st with isActive := true } else st

/-- `restart()`: `pause` then `resume`. -/
def restart (st : PollState ε) : PollState ε :=
  resume (pause st)

/-- `stop()`: `pause` and additionally clear the retry counter and the last
error. -/
def stop (st : PollState ε) : PollState ε :=
  let st1 := pause st
  { st1 with retryCount := 0, lastError := none }

/-- `adjustPollingInterval()`: recompute the interval by the offline /
hidden / active precedence; when it changed and polling is active, restart
the pending timer with the new interval. -/
def adjustPollingInterval (cfg : PollConfig) (st : PollState ε) : PollState ε :=
  let newInterval :=
    if !st.isOnline then cfg.backgroundInterval * 2
    else if !st.isVisible then cfg.backgroundInterval
    else if st.isUserActive then cfg.activeInterval
    else cfg.normalInterval
  if newInterval ≠ st.currentInterval then
    let st1 := { st with currentInterval := newInterval }
    if st1.isActive then restart st1 else st1
  else st

/-- The `online` listener: record the online state, then `resume()`. -/
def handleOnline (st : PollState ε) : PollState ε :=
  resume { st with isOnline := true }

/-- The `offline` listener: record the offline state, then `pause()`. -/
def handleOffline (st : PollState ε) : PollState ε :=
  pause { st with isOnline := false }

/-- The `visibilitychange` listener: record the visibility, then
`adjustPollingInterval()`. -/
def handleVisibilityChange (cfg : PollConfig) (st : PollState ε)
    (visible : Bool) : PollState ε :=
  adjustPollingInterval cfg { st with isVisible := visible }

/-- The user-activity handler: mark the user active, then
`adjustPollingInterval()` (the 60-second inactivity timer that calls
`handleUserInactive` later is part of the browser environment). -/
def handleUserActive (cfg : PollConfig) (st : PollState ε) : PollState ε :=
  adjustPollingInterval cfg { st with isUserActive := true }

/-- The inactivity timeout body: mark the user inactive, then
`adjustPollingInterval()`. -/
def handleUserInactive (cfg : PollConfig) (st : PollState ε) : PollState ε :=
  adjustPollingInterval cfg { st with isUserActive := false }

/-- `handleError(error)`: record the error and bump `retryCount`; on
reaching `maxRetries`, `pause()` and fire the error callback with reason
`max_retries_exceeded`; otherwise await `retryDelay`. -/
def handleError (cfg : PollConfig) (st : PollState ε) (e : ε) :
    PollState ε × List (PollEvent ε δ) :=
  let st1 := { st with lastError := some e, retryCount := st.retryCount + 1 }
  if st1.retryCount ≥ cfg.maxRetries then
    (pause st1, [.errorCb e "max_retries_exceeded"])
  else
    (st1, [.delayed cfg.retryDelay])

/-- `executePollingCycle()` for one fetch outcome: a no-op when inactive;
otherwise record the fetch time, then on success reset the retry state and
fire the success callback, on failure run `handleError`; finally, when
still active, arm the next timer with `currentInterval`.
A missing `fetchFunction` throws inside the `try` block, so it is subsumed
by the `Except.error` outcome. -/
def executePollingCycle (cfg : PollConfig) (st : PollState ε) (now : Int)
    (fetchResult : Except ε δ) : PollState ε × List (PollEvent ε δ) :=
  if !st.isActive then (st, [])
  else
    let st0 := { st with lastFetchTime := some now }
    let step : PollState ε × List (PollEvent ε δ) :=
      match fetchResult with
      | .ok data =>
        let st1 := { st0 with
          retryCount := 0
          lastSuccessTime := some now
          lastError := none }
        (st1, [PollEvent.successCb data])
      | .error e => handleError cfg st0 e
    if step.1.isActive then
      ({ step.1 with timerId := some 1 },
        step.2 ++ [.scheduled step.1.currentInterval])
    else step

/-- Run `n` consecutive polling cycles whose fetches all fail with `e`,
concatenating the emitted events. -/
def runFailures (cfg : PollConfig) (e : ε) (now : Int) (δ : Type) :
    Nat → PollState ε → PollState ε × List (PollEvent ε δ)
  | 0, st => (st, [])
  | n + 1, st =>
    let step := executePollingCycle (δ := δ) cfg st now (.error e)
    let rest := runFailures cfg e now δ n step.1
    (rest.1, step.2 ++ rest.2)

/-- Does an event report retry exhaustion? -/
def isMaxRetriesEvent : PollEvent ε δ → Bool
  | .errorCb _ reason => reason = "max_retries_exceeded"
  | _ => false

/-- Total waiting time an event contributes before the next fetch attempt:
awaited delays plus armed timers. -/
def eventWait : PollEvent ε δ → Nat
  | .delayed ms => ms
  | .scheduled ms => ms
  | _ => 0

/-- Sum of the waiting time of a cycle's events. -/
def totalWait (evs : List (PollEvent ε δ)) : Nat :=
  (evs.map eventWait).sum

end PollingService

namespace PollingService

/-- Interval precedence exactly as the spec words it, for comparison with
`adjustPollingInterval`: offline → `backgroundInterval × 2`; else hidden →
`backgroundInterval`; else user-active → `activeInterval`; else
`normalInterval`. -/
def specIntervalFor (cfg : PollConfig) (isOnline isVisible isUserActive : Bool) : Nat :=
  if !isOnline then cfg.backgroundInterval * 2
  else if !isVisible then cfg.backgroundInterval
  else if isUserActive then cfg.activeInterval
  else cfg.normalInterval

theorem restart_currentInterval {ε : Type} (st : PollState ε) :
    (restart st).currentInterval = st.currentInterval := by
  simp [restart, resume, pause]

theorem adjust_currentInterval {ε : Type} (cfg : PollConfig) (st : PollState ε) :
    (adjustPollingInterval cfg st).currentInterval =
      specIntervalFor cfg st.isOnline st.isVisible st.isUserActive := by
  unfold adjustPollingInterval specIntervalFor
  dsimp only
  repeat' split
  all_goals first
    | rfl
    | (rw [restart_currentInterval])
    | (next h => push_neg at h; exact h.symm)

/-- C2 (amended): whenever `adjustPollingInterval` runs — which the
visibility and user-activity handlers do on their signal changes — the
interval is recomputed by the precedence offline → `backgroundInterval×2`,
else hidden → `backgroundInterval`, else active → `activeInterval`, else
`normalInterval`; the `online`/`offline` listeners, however, only
resume/pause the service and leave `currentIntervalMs` unchanged. -/
theorem C2_interval_precedence {ε : Type} (cfg : PollConfig)
    (st : PollState ε) (v : Bool) :
    (adjustPollingInterval cfg st).currentInterval =
      specIntervalFor cfg st.isOnline st.isVisible st.isUserActive ∧
    (handleVisibilityChange cfg st v).currentInterval =
      specIntervalFor cfg st.isOnline v st.isUserActive ∧
    (handleUserActive cfg st).currentInterval =
      specIntervalFor cfg st.isOnline st.isVisible true ∧
    (handleUserInactive cfg st).currentInterval =
      specIntervalFor cfg st.isOnline st.isVisible false ∧
    (handleOffline st).currentInterval = st.currentInterval ∧
    (handleOnline st).currentInterval = st.currentInterval := by
  refine ⟨adjust_currentInterval cfg st, ?_, ?_, ?_, rfl, ?_⟩
  · exact adjust_currentInterval cfg { st with isVisible := v }
  · exact adjust_currentInterval cfg { st with isUserActive := true }
  · exact adjust_currentInterval cfg { st with isUserActive := false }
  · unfold handleOnline resume
    split
    · rfl
    · rfl

/-- Default polling configuration (constructor defaults). -/
def cfgP : PollConfig :=
  { normalInterval := 30000
    activeInterval := 10000
    backgroundInterval := 60000
    retryDelay := 5000
    maxRetries := 3 }

/-- A concrete active polling state: online, visible, user idle, interval
at `normalInterval`, no failures yet. -/
def stP : PollState String :=
  { isActive := true
    currentInterval := 30000
    retryCount := 0
    isOnline := true
    isVisible := true
    isUserActive := false
    timerId := some 1
    lastFetchTime := none
    lastSuccessTime := none
    lastError := none }

/-- C2 counterexample: the claim fails as stated. When the online signal
changes to offline, the `offline` listener pauses polling but does not
recompute the interval: it stays at 30000 instead of
`backgroundInterval × 2 = 120000`. -/
theorem C2_counterexample :
    (handleOffline stP).isOnline = false ∧
    (handleOffline stP).currentInterval = 30000 ∧
    cfgP.backgroundInterval * 2 = 120000 ∧
    (handleOffline stP).currentInterval ≠ cfgP.backgroundInterval * 2 := by
  refine ⟨rfl, rfl, rfl, ?_⟩
  decide

/-- C8: `pause` deactivates and cancels the pending timer while leaving
`retryCount`, `lastError` and every other state field unchanged; `stop`
does the same and additionally resets `retryCount` to 0 and `lastError`
to null. -/
theorem C8_pause_stop_frame {ε : Type} (st : PollState ε) :
    (pause st).isActive = false ∧ (pause st).timerId = none ∧
    (pause st).retryCount = st.retryCount ∧
    (pause st).lastError = st.lastError ∧
    (pause st).currentInterval = st.currentInterval ∧
    (pause st).isOnline = st.isOnline ∧
    (pause st).isVisible = st.isVisible ∧
    (pause st).isUserActive = st.isUserActive ∧
    (pause st).lastFetchTime = st.lastFetchTime ∧
    (pause st).lastSuccessTime = st.lastSuccessTime ∧
    (stop st).isActive = false ∧ (stop st).timerId = none ∧
    (stop st).retryCount = 0 ∧ (stop st).lastError = none ∧
    (stop st).currentInterval = st.currentInterval ∧
    (stop st).isOnline = st.isOnline ∧
    (stop st).isVisible = st.isVisible ∧
    (stop st).isUserActive = st.isUserActive ∧
    (stop st).lastFetchTime = st.lastFetchTime ∧
    (stop st).lastSuccessTime = st.lastSuccessTime :=
  ⟨rfl, rfl, rfl, rfl, rfl, rfl, rfl, rfl, rfl, rfl,
    rfl, rfl, rfl, rfl, rfl, rfl, rfl, rfl, rfl, rfl⟩

theorem cycle_fail_below {ε δ : Type} (cfg : PollConfig) (st : PollState ε)
    (now : Int) (e : ε)
    (hact : st.isActive = true) (hlt : st.retryCount + 1 < cfg.maxRetries) :
    executePollingCycle cfg st now (Except.error e : Except ε δ) =
      ({ st with
          lastFetchTime := some now
          lastError := some e
          retryCount := st.retryCount + 1
          timerId := some 1 },
        [PollEvent.delayed cfg.retryDelay,
          PollEvent.scheduled st.currentInterval]) := by
  have hnot : ¬(st.retryCount + 1 ≥ cfg.maxRetries) := by omega
  simp [executePollingCycle, handleError, hact, hnot]

theorem cycle_fail_exhaust {ε δ : Type} (cfg : PollConfig) (st : PollState ε)
    (now : Int) (e : ε)
    (hact : st.isActive = true) (hge : cfg.maxRetries ≤ st.retryCount + 1) :
    executePollingCycle cfg st now (Except.error e : Except ε δ) =
      ({ st with
          lastFetchTime := some now
          lastError := some e
          retryCount := st.retryCount + 1
          isActive := false
          timerId := none },
        [PollEvent.errorCb e "max_retries_exceeded"]) := by
  simp [executePollingCycle, handleError, pause, hact, hge]

theorem cycle_success {ε δ : Type} (cfg : PollConfig) (st : PollState ε)
    (now : Int) (d : δ) (hact : st.isActive = true) :
    executePollingCycle cfg st now (Except.ok d : Except ε δ) =
      ({ st with
          lastFetchTime := some now
          retryCount := 0
          lastSuccessTime := some now
          lastError := none
          timerId := some 1 },
        [PollEvent.successCb d, PollEvent.scheduled st.currentInterval]) := by
  simp [executePollingCycle, hact]

end PollingService

namespace PollingService

theorem runFailures_below {ε δ : Type} (cfg : PollConfig) (e : ε) (now : Int)
    (k : Nat) :
    ∀ (st : PollState ε), st.isActive = true →
      st.retryCount + k < cfg.maxRetries →
      (runFailures cfg e now δ k st).1.isActive = true ∧
      (runFailures cfg e now δ k st).1.retryCount = st.retryCount + k ∧
      (runFailures cfg e now δ k st).2.countP isMaxRetriesEvent = 0 := by
  induction k with
  | zero =>
    intro st hact _
    exact ⟨hact, by simp [runFailures], by simp [runFailures]⟩
  | succ n ih =>
    intro st hact hlt
    have h1 : st.retryCount + 1 < cfg.maxRetries := by omega
    simp only [runFailures]
    rw [cycle_fail_below cfg st now e hact h1]
    have step := ih
      { st with
        lastFetchTime := some now
        lastError := some e
        retryCount := st.retryCount + 1
        timerId := some 1 }
      hact (by simpa using by omega)
    obtain ⟨ha, hr, hc⟩ := step
    refine ⟨ha, ?_, ?_⟩
    · rw [hr]
      simp only
      omega
    · simp only [List.countP_append, hc]
      simp [List.countP_cons, isMaxRetriesEvent]

theorem runFailures_exhaust {ε δ : Type} (cfg : PollConfig) (e : ε) (now : Int)
    (k : Nat) :
    ∀ (st : PollState ε), st.isActive = true →
      st.retryCount + k = cfg.maxRetries → 0 < k →
      (runFailures cfg e now δ k st).1.isActive = false ∧
      (runFailures cfg e now δ k st).1.timerId = none ∧
      (runFailures cfg e now δ k st).2.countP isMaxRetriesEvent = 1 ∧
      (runFailures cfg e now δ k st).2.getLast? =
        some (PollEvent.errorCb e "max_retries_exceeded") := by
  induction k with
  | zero =>
    intro st _ _ h0
    exact absurd h0 (by omega)
  | succ n ih =>
    intro st hact heq hpos
    rcases Nat.eq_zero_or_pos n with hn0 | hnpos
    · subst hn0
      have hge : cfg.maxRetries ≤ st.retryCount + 1 := by omega
      simp only [runFailures]
      rw [cycle_fail_exhaust cfg st now e hact hge]
      refine ⟨rfl, rfl, ?_, ?_⟩
      · simp [List.countP_cons, isMaxRetriesEvent]
      · simp
    · have h1 : st.retryCount + 1 < cfg.maxRetries := by omega
      simp only [runFailures]
      rw [cycle_fail_below cfg st now e hact h1]
      have step := ih
        { st with
          lastFetchTime := some now
          lastError := some e
          retryCount := st.retryCount + 1
          timerId := some 1 }
        hact (by simp only; omega) hnpos
      obtain ⟨ha, ht, hc, hl⟩ := step
      refine ⟨ha, ht, ?_, ?_⟩
      · simp only [List.countP_append, hc]
        simp [List.countP_cons, isMaxRetriesEvent]
      · have hne : (runFailures cfg e now δ n
            { st with
              lastFetchTime := some now
              lastError := some e
              retryCount := st.retryCount + 1
              timerId := some 1 }).2 ≠ [] := by
          intro hnil
          rw [hnil] at hl
          simp at hl
        rw [List.getLast?_append_of_ne_nil _ hne]
        exact hl

/-- C3: in a run of consecutive fetch failures started from an active
state with `retryCount = 0` (the state after any success) and
`maxRetries ≥ 1`: before the `maxRetries`-th failure the service stays
active and the error callback is never invoked; at exactly the
`maxRetries`-th failure the service stops (inactive, no timer pending)
and the event trace ends with the error callback firing exactly once
with reason `max_retries_exceeded`; and an intervening successful cycle
resets `retryCount` to 0. -/
theorem C3_retry_exhaustion {ε δ : Type} (cfg : PollConfig) (e : ε)
    (now : Int) (st : PollState ε)
    (hact : st.isActive = true) (hzero : st.retryCount = 0)
    (hmax : 1 ≤ cfg.maxRetries) :
    (∀ k, k < cfg.maxRetries →
      (runFailures cfg e now δ k st).1.isActive = true ∧
      (runFailures cfg e now δ k st).2.countP isMaxRetriesEvent = 0) ∧
    ((runFailures cfg e now δ cfg.maxRetries st).1.isActive = false ∧
      (runFailures cfg e now δ cfg.maxRetries st).1.timerId = none ∧
      (runFailures cfg e now δ cfg.maxRetries st).2.countP isMaxRetriesEvent = 1 ∧
      (runFailures cfg e now δ cfg.maxRetries st).2.getLast? =
        some (PollEvent.errorCb e "max_retries_exceeded")) ∧
    (∀ (st' : PollState ε) (d : δ), st'.isActive = true →
      (executePollingCycle cfg st' now (Except.ok d : Except ε δ)).1.retryCount = 0) := by
  refine ⟨?_, ?_, ?_⟩
  · intro k hk
    have h := @runFailures_below ε δ cfg e now k st hact (by omega)
    exact ⟨h.1, h.2.2⟩
  · exact runFailures_exhaust cfg e now cfg.maxRetries st hact (by omega) (by omega)
  · intro st' d hact'
    rw [cycle_success cfg st' now d hact']

/-- C3 witness: retry exhaustion at the default configuration
(`maxRetries = 3`) from the concrete active state `stP`. -/
theorem C3_retry_exhaustion_witness :
    (runFailures cfgP "boom" 0 Nat 3 stP).1.isActive = false ∧
    (runFailures cfgP "boom" 0 Nat 3 stP).2.countP isMaxRetriesEvent = 1 :=
  ⟨((C3_retry_exhaustion cfgP "boom" 0 stP rfl rfl (by decide)).2.1).1,
    ((C3_retry_exhaustion cfgP "boom" 0 stP rfl rfl (by decide)).2.1).2.2.1⟩

/-- C4 counterexample: the claim fails as stated. With the default
configuration, after one non-final failure the service stays active, but
the waiting time before the next fetch attempt is
`retryDelay + currentInterval = 35000` ms, not `retryDelay = 5000` ms:
`handleError` awaits the retry delay and then the `finally` block still
arms the regular interval timer. -/
theorem C4_counterexample :
    (executePollingCycle cfgP stP 0
      (Except.error "boom" : Except String Nat)).1.isActive = true ∧
    totalWait (executePollingCycle cfgP stP 0
      (Except.error "boom" : Except String Nat)).2 = 35000 ∧
    cfgP.retryDelay = 5000 ∧ (35000 : Nat) ≠ 5000 := by
  refine ⟨rfl, rfl, rfl, by decide⟩

/-- C4 (amended): when a cycle's fetch fails and the incremented
`retryCount` is still below `maxRetries`, the service remains active, and
the cycle's effects are exactly the awaited `retryDelayMs` followed by
arming the regular `currentIntervalMs` timer — so the next fetch attempt
happens `retryDelayMs + currentIntervalMs` after the failure, not
`retryDelayMs` alone. -/
theorem C4_retry_wait {ε δ : Type} (cfg : PollConfig) (st : PollState ε)
    (now : Int) (e : ε)
    (hact : st.isActive = true) (hlt : st.retryCount + 1 < cfg.maxRetries) :
    (executePollingCycle cfg st now
      (Except.error e : Except ε δ)).1.isActive = true ∧
    (executePollingCycle cfg st now (Except.error e : Except ε δ)).2 =
      [PollEvent.delayed cfg.retryDelay,
        PollEvent.scheduled st.currentInterval] ∧
    totalWait (executePollingCycle cfg st now
      (Except.error e : Except ε δ)).2 =
      cfg.retryDelay + st.currentInterval := by
  rw [cycle_fail_below cfg st now e hact hlt]
  refine ⟨hact, rfl, ?_⟩
  simp [totalWait, eventWait]

/-- C4 witness: the amended behaviour at the default configuration. -/
theorem C4_retry_wait_witness :
    (executePollingCycle cfgP stP 0
      (Except.error "boom" : Except String Nat)).1.isActive = true ∧
    totalWait (executePollingCycle cfgP stP 0
      (Except.error "boom" : Except String Nat)).2 =
      cfgP.retryDelay + stP.currentInterval := by
  have h := @C4_retry_wait String Nat cfgP stP 0 "boom" rfl (by decide)
  exact ⟨h.1, h.2.2⟩

end PollingService

namespace CacheManager

/-- One cache entry as built by `set`:
`{key, value, timestamp, ttl, type, priority, size}` plus the
`lastAccessed` stamp updated on reads. -/
structure CacheItem (ν : Type) where
  key : String
  value : ν
  timestamp : Int
  ttl : Int
  type : String
  priority : Int
  size : Int
  lastAccessed : Option Int := none

/-- JavaScript `x || d` for numeric options: an absent or falsy (zero)
value falls back to the default. -/
def jsOrInt (x : Option Int) (d : Int) : Int :=
  match x with
  | none => d
  | some v => if v = 0 then d else v

/-- JavaScript `x || d` for string options: an absent or falsy (empty)
value falls back to the default. -/
def jsOrStr (x : Option String) (d : String) : String :=
  match x with
  | none => d
  | some v => if v = "" then d else v

/-- The options of a `CacheManager` instance over value type `ν`
(defaults: `maxSizeMB = 50`, `defaultTTL = 300000`, memory cache on,
Service Worker cache off). `estimateSize` abstracts the browser-side
`estimateSize` method (`new Blob([JSON.stringify(obj)]).size`), an opaque
byte-count function of the value. -/
structure CacheConfig (ν : Type) where
  maxSizeMB : Int
  defaultTTL : Int
  enableMemoryCache : Bool
  enableServiceWorker : Bool
  estimateSize : ν → Int

/-- The mutable state: the memory tier, the IndexedDB tier (`indexedDB`
is true iff the connection object is non-null), the Service Worker cache,
and the running `currentSize`/`itemCount` statistics. -/
structure CacheState (ν : Type) where
  memoryCache : JsMap (CacheItem ν)
  indexedDB : Bool
  idbStore : JsMap (CacheItem ν)
  swCache : JsMap ν
  currentSize : Int
  itemCount : Int

/-- The state right after construction and `init`: empty tiers and zero
statistics. -/
def initialState (idb : Bool) : CacheState ν :=
  { memoryCache := []
    indexedDB := idb
    idbStore := []
    swCache := []
    currentSize := 0
    itemCount := 0 }

/-- `isExpired(cacheItem)`: expired iff `now - timestamp > ttl`. -/
def isExpired (now : Int) (item : CacheItem ν) : Bool :=
  now - item.timestamp > item.ttl

/-- `maxSizeMB * 1024 * 1024`. -/
def maxSizeBytes (cfg : CacheConfig ν) : Int :=
  cfg.maxSizeMB * 1024 * 1024

/-- `isStorageFull(additionalSize)`. -/
def isStorageFull (cfg : CacheConfig ν) (st : CacheState ν)
    (additionalSize : Int) : Bool :=
  st.currentSize + additionalSize > maxSizeBytes cfg

/-- Total estimated size of a list of entries. -/
def sumSizes (l : JsMap (CacheItem ν)) : Int :=
  (l.map (fun p => p.2.size)).sum

/-- The 70% space target of `makeSpace`/`cleanupOldestItems`
(`maxSizeBytes * 0.7` in the source; integer arithmetic here). -/
def targetSize (cfg : CacheConfig ν) : Int :=
  maxSizeBytes cfg * 7 / 10

/-- `cleanupExpiredCache()`: drop expired memory entries, and IndexedDB
entries whose timestamp is at most `now - defaultTTL` (the cursor range
uses the default TTL, not the per-item one), subtracting the removed
sizes and counts from the statistics. -/
def cleanupExpiredCache (cfg : CacheConfig ν) (st : CacheState ν)
    (now : Int) : CacheState ν :=
  let memVictims :=
    if cfg.enableMemoryCache then st.memoryCache.filter (fun p => isExpired now p.2)
    else []
  let mem' :=
    if cfg.enableMemoryCache then st.memoryCache.filter (fun p => !isExpired now p.2)
    else st.memoryCache
  let idbVictims :=
    if st.indexedDB then
      st.idbStore.filter (fun p => p.2.timestamp ≤ now - cfg.defaultTTL)
    else []
  let idb' :=
    if st.indexedDB then
      st.idbStore.filter (fun p => !(p.2.timestamp ≤ now - cfg.defaultTTL : Bool))
    else st.idbStore
  { st with
    memoryCache := mem'
    idbStore := idb'
    currentSize := st.currentSize - (sumSizes memVictims + sumSizes idbVictims)
    itemCount := st.itemCount - (memVictims.length + idbVictims.length) }

/-- `cleanupLowPriorityItems()`: delete entries of priority 1–3 from the
IndexedDB tier and the memory tier; only the IndexedDB victims' sizes and
count are subtracted from the statistics, mirroring the source. -/
def cleanupLowPriorityItems (cfg : CacheConfig ν) (st : CacheState ν) :
    CacheState ν :=
  if !st.indexedDB then st
  else
    let idbVictims :=
      st.idbStore.filter (fun p => 1 ≤ p.2.priority ∧ p.2.priority ≤ 3)
    let idb' :=
      st.idbStore.filter (fun p => !(1 ≤ p.2.priority ∧ p.2.priority ≤ 3 : Bool))
    let mem' :=
      if cfg.enableMemoryCache then
        st.memoryCache.filter (fun p => !(1 ≤ p.2.priority ∧ p.2.priority ≤ 3 : Bool))
      else st.memoryCache
    { st with
      memoryCache := mem'
      idbStore := idb'
      currentSize := st.currentSize - sumSizes idbVictims
      itemCount := st.itemCount - idbVictims.length }

/-- `cleanupOldestItems()`: the timestamp cursor deletes entries while
`currentSize > targetSize`, but the size counter is only written back
after the walk, so the loop condition compares the pre-walk size
throughout: when over target the walk empties the IndexedDB store,
otherwise it deletes nothing. -/
def cleanupOldestItems (cfg : CacheConfig ν) (st : CacheState ν) :
    CacheState ν :=
  if !st.indexedDB then st
  else if st.currentSize > targetSize cfg then
    { st with
      idbStore := []
      currentSize := st.currentSize - sumSizes st.idbStore
      itemCount := st.itemCount - st.idbStore.length }
  else st

/-- `makeSpace(requiredSize)`: sweep expired entries, then low-priority
entries, then oldest entries, each stage only when projected usage still
exceeds the 70% target. -/
def makeSpace (cfg : CacheConfig ν) (st : CacheState ν)
    (requiredSize : Int) (now : Int) : CacheState ν :=
  if st.currentSize + requiredSize ≤ targetSize cfg then st
  else
    let st1 := cleanupExpiredCache cfg st now
    let st2 :=
      if st1.currentSize + requiredSize > targetSize cfg then
        cleanupLowPriorityItems cfg st1
      else st1
    if st2.currentSize + requiredSize > targetSize cfg then
      cleanupOldestItems cfg st2
    else st2

/-- The `cacheItem` object `set` builds: timestamp `now`,
`ttl = options.ttl || defaultTTL`, `type = options.type || 'json'`,
`priority = options.priority || 5`, `size = estimateSize(value)`. -/
def mkItem (cfg : CacheConfig ν) (key : String) (value : ν)
    (ttlOpt : Option Int) (typeOpt : Option String) (prioOpt : Option Int)
    (now : Int) : CacheItem ν :=
  { key := key
    value := value
    timestamp := now
    ttl := jsOrInt ttlOpt cfg.defaultTTL
    type := jsOrStr typeOpt "json"
    priority := jsOrInt prioOpt 5
    size := cfg.estimateSize value }

/-- `set(key, value, options)`: check space (freeing some when full),
write the memory tier, write the IndexedDB tier (`idbFail` injects a
storage failure — quota exceeded or structured-clone serialization
error), write the Service Worker cache for image/html entries, then bump
the statistics and return true; any failure inside the try block is
caught and turned into a false return instead of an exception, so the
result is always `Except.ok`. -/
def set (cfg : CacheConfig ν) (st : CacheState ν) (key : String) (value : ν)
    (ttlOpt : Option Int) (typeOpt : Option String) (prioOpt : Option Int)
    (now : Int) (idbFail : Option ε) : Except ε (Bool × CacheState ν) :=
  let item := mkItem cfg key value ttlOpt typeOpt prioOpt now
  let st1 :=
    if isStorageFull cfg st item.size then makeSpace cfg st item.size now
    else st
  let st2 :=
    if cfg.enableMemoryCache then
      { st1 with memoryCache := mapSet st1.memoryCache key item }
    else st1
  match (if st2.indexedDB then idbFail else none) with
  | some _ => Except.ok (false, st2)
  | none =>
    let st3 :=
      if st2.indexedDB then { st2 with idbStore := mapSet st2.idbStore key item }
      else st2
    let st4 :=
      if cfg.enableServiceWorker && (item.type == "image" || item.type == "html") then
        { st3 with swCache := mapSet st3.swCache key value }
      else st3
    Except.ok (true,
      { st4 with
        currentSize := st4.currentSize + item.size
        itemCount := st4.itemCount + 1 })

/-- The IndexedDB read path of `get`: on a storage error, warn and fall
through to null; on an unexpired hit, stamp `lastAccessed`, promote the
entry into the memory tier, write the stamp back (`updateLastAccessed`)
and return the value. -/
def getIdbTier (cfg : CacheConfig ν) (st : CacheState ν) (key : String)
    (now : Int) (idbFail : Option ε) : Except ε (Option ν × CacheState ν) :=
  if st.indexedDB then
    match idbFail with
    | some _ => Except.ok (none, st)
    | none =>
      match mapGet st.idbStore key with
      | some dbItem =>
        if !isExpired now dbItem then
          let dbItem' := { dbItem with lastAccessed := some now }
          let st1 :=
            if cfg.enableMemoryCache then
              { st with memoryCache := mapSet st.memoryCache key dbItem' }
            else st
          let st2 := { st1 with idbStore := mapSet st1.idbStore key dbItem' }
          Except.ok (some dbItem.value, st2)
        else Except.ok (none, st)
      | none => Except.ok (none, st)
  else Except.ok (none, st)

/-- `get(key)`: an unexpired memory hit returns immediately (stamping
`lastAccessed`); otherwise the IndexedDB tier is consulted; expired
entries are treated as absent. -/
def get (cfg : CacheConfig ν) (st : CacheState ν) (key : String) (now : Int)
    (idbFail : Option ε) : Except ε (Option ν × CacheState ν) :=
  let memHit := if cfg.enableMemoryCache then mapGet st.memoryCache key else none
  match memHit with
  | some item =>
    if !isExpired now item then
      let item' := { item with lastAccessed := some now }
      Except.ok (some item.value,
        { st with memoryCache := mapSet st.memoryCache key item' })
    else getIdbTier cfg st key now idbFail
  | none => getIdbTier cfg st key now idbFail

/-- `delete(key)`: remove the key from every tier; when the memory tier
held it, subtract that entry's size and decrement the item count. -/
def delete (cfg : CacheConfig ν) (st : CacheState ν) (key : String) :
    Bool × CacheState ν :=
  let st1 :=
    if cfg.enableMemoryCache && mapHas st.memoryCache key then
      match mapGet st.memoryCache key with
      | some item =>
        { st with
          memoryCache := mapDelete st.memoryCache key
          currentSize := st.currentSize - item.size
          itemCount := st.itemCount - 1 }
      | none => st
    else st
  let st2 :=
    if st1.indexedDB then { st1 with idbStore := mapDelete st1.idbStore key }
    else st1
  let st3 :=
    if cfg.enableServiceWorker then { st2 with swCache := mapDelete st2.swCache key }
    else st2
  (true, st3)

/-- The value a `get` call produces (`null` on a storage error). -/
def getValue (cfg : CacheConfig ν) (st : CacheState ν) (key : String)
    (now : Int) (idbFail : Option ε) : Option ν :=
  match get cfg st key now idbFail with
  | .ok r => r.1
  | .error _ => none

/-- The boolean a `set` call returns, or `none` when it threw. -/
def setResultFlag (r : Except ε (Bool × CacheState ν)) : Option Bool :=
  match r with
  | .ok p => some p.1
  | .error _ => none

end CacheManager

namespace CacheManager

theorem cleanupExpiredCache_indexedDB (cfg : CacheConfig ν) (st : CacheState ν)
    (now : Int) : (cleanupExpiredCache cfg st now).indexedDB = st.indexedDB := rfl

theorem cleanupLowPriorityItems_indexedDB (cfg : CacheConfig ν)
    (st : CacheState ν) :
    (cleanupLowPriorityItems cfg st).indexedDB = st.indexedDB := by
  unfold cleanupLowPriorityItems
  split
  · rfl
  · rfl

theorem cleanupOldestItems_indexedDB (cfg : CacheConfig ν) (st : CacheState ν) :
    (cleanupOldestItems cfg st).indexedDB = st.indexedDB := by
  unfold cleanupOldestItems
  split
  · rfl
  · split
    · rfl
    · rfl

theorem makeSpace_indexedDB (cfg : CacheConfig ν) (st : CacheState ν)
    (requiredSize now : Int) :
    (makeSpace cfg st requiredSize now).indexedDB = st.indexedDB := by
  unfold makeSpace
  dsimp only
  split_ifs <;>
    simp [cleanupOldestItems_indexedDB, cleanupLowPriorityItems_indexedDB,
      cleanupExpiredCache_indexedDB]

theorem set_none_spec {ν ε : Type} (cfg : CacheConfig ν) (st : CacheState ν)
    (key : String) (value : ν) (ttlOpt : Option Int) (typeOpt : Option String)
    (prioOpt : Option Int) (now : Int) :
    ∃ st' : CacheState ν,
      set cfg st key value ttlOpt typeOpt prioOpt now (none : Option ε) =
        Except.ok (true, st') ∧
      st'.indexedDB = st.indexedDB ∧
      (cfg.enableMemoryCache = true →
        mapGet st'.memoryCache key =
          some (mkItem cfg key value ttlOpt typeOpt prioOpt now)) ∧
      (st.indexedDB = true →
        mapGet st'.idbStore key =
          some (mkItem cfg key value ttlOpt typeOpt prioOpt now)) ∧
      (isStorageFull cfg st (cfg.estimateSize value) = false →
        st'.currentSize = st.currentSize + cfg.estimateSize value ∧
        st'.itemCount = st.itemCount + 1) ∧
      (isStorageFull cfg st (cfg.estimateSize value) = false →
        cfg.enableMemoryCache = true →
        st'.memoryCache =
          mapSet st.memoryCache key
            (mkItem cfg key value ttlOpt typeOpt prioOpt now)) := by
  unfold set
  dsimp only
  rw [ite_self]
  dsimp only
  set item := mkItem cfg key value ttlOpt typeOpt prioOpt now with hitemDef
  set st1 := if isStorageFull cfg st item.size then
      makeSpace cfg st item.size now else st with hst1
  set st2 := if cfg.enableMemoryCache = true then
      { st1 with memoryCache := mapSet st1.memoryCache key item }
    else st1 with hst2
  set st3 := if st2.indexedDB = true then
      { st2 with idbStore := mapSet st2.idbStore key item }
    else st2 with hst3
  set st4 := if (cfg.enableServiceWorker &&
      (item.type == "image" || item.type == "html")) = true then
      { st3 with swCache := mapSet st3.swCache key value }
    else st3 with hst4
  have hsize : item.size = cfg.estimateSize value := by
    simp [hitemDef, mkItem]
  have hst1idb : st1.indexedDB = st.indexedDB := by
    rw [hst1]
    split
    · exact makeSpace_indexedDB cfg st item.size now
    · rfl
  have hst2idb : st2.indexedDB = st1.indexedDB := by
    rw [hst2]
    split <;> rfl
  have hst3idb : st3.indexedDB = st2.indexedDB := by
    rw [hst3]
    split <;> rfl
  have hst4idb : st4.indexedDB = st3.indexedDB := by
    rw [hst4]
    split <;> rfl
  have hst3mem : st3.memoryCache = st2.memoryCache := by
    rw [hst3]
    split <;> rfl
  have hst4mem : st4.memoryCache = st3.memoryCache := by
    rw [hst4]
    split <;> rfl
  have hst3size : st3.currentSize = st2.currentSize := by
    rw [hst3]
    split <;> rfl
  have hst4size : st4.currentSize = st3.currentSize := by
    rw [hst4]
    split <;> rfl
  have hst2size : st2.currentSize = st1.currentSize := by
    rw [hst2]
    split <;> rfl
  have hst3count : st3.itemCount = st2.itemCount := by
    rw [hst3]
    split <;> rfl
  have hst4count : st4.itemCount = st3.itemCount := by
    rw [hst4]
    split <;> rfl
  have hst2count : st2.itemCount = st1.itemCount := by
    rw [hst2]
    split <;> rfl
  refine ⟨_, rfl, ?_, ?_, ?_, ?_, ?_⟩
  · rw [hst4idb, hst3idb, hst2idb, hst1idb]
  · intro hmc
    have hst2mem : st2.memoryCache = mapSet st1.memoryCache key item := by
      rw [hst2, if_pos hmc]
    show mapGet st4.memoryCache key = some item
    rw [hst4mem, hst3mem, hst2mem]
    exact mapGet_mapSet_self _ _ _
  · intro hidb
    have h2 : st2.indexedDB = true := by rw [hst2idb, hst1idb, hidb]
    have hst3idbStore : st3.idbStore = mapSet st2.idbStore key item := by
      rw [hst3, if_pos h2]
    have hst4idbStore : st4.idbStore = st3.idbStore := by
      rw [hst4]
      split <;> rfl
    show mapGet st4.idbStore key = some item
    rw [hst4idbStore, hst3idbStore]
    exact mapGet_mapSet_self _ _ _
  · intro hfull
    have hst1eq : st1 = st := by
      rw [hst1, if_neg]
      rw [hsize, hfull]
      exact Bool.noConfusion
    constructor
    · show st4.currentSize + item.size = st.currentSize + cfg.estimateSize value
      rw [hst4size, hst3size, hst2size, hst1eq, hsize]
    · show st4.itemCount + 1 = st.itemCount + 1
      rw [hst4count, hst3count, hst2count, hst1eq]
  · intro hfull hmc
    have hst1eq : st1 = st := by
      rw [hst1, if_neg]
      rw [hsize, hfull]
      exact Bool.noConfusion
    show st4.memoryCache = mapSet st.memoryCache key item
    rw [hst4mem, hst3mem, hst2, if_pos hmc, hst1eq]

/-- Concrete default-style configuration over `Nat` values: 50 MB cap,
5-minute default TTL, memory tier on, Service Worker tier off, every
value estimated at 100 bytes. -/
def cfgC : CacheConfig Nat :=
  { maxSizeMB := 50
    defaultTTL := 300000
    enableMemoryCache := true
    enableServiceWorker := false
    estimateSize := fun _ => 100 }

theorem set_some_spec {ν ε : Type} (cfg : CacheConfig ν) (st : CacheState ν)
    (key : String) (value : ν) (ttlOpt : Option Int) (typeOpt : Option String)
    (prioOpt : Option Int) (now : Int) (err : ε)
    (hidb : st.indexedDB = true) :
    ∃ st2 : CacheState ν,
      set cfg st key value ttlOpt typeOpt prioOpt now (some err) =
        Except.ok (false, st2) := by
  unfold set
  dsimp only
  set item := mkItem cfg key value ttlOpt typeOpt prioOpt now with hitemDef
  set st1 := if isStorageFull cfg st item.size then
      makeSpace cfg st item.size now else st with hst1
  set st2 := if cfg.enableMemoryCache = true then
      { st1 with memoryCache := mapSet st1.memoryCache key item }
    else st1 with hst2
  have hst1idb : st1.indexedDB = st.indexedDB := by
    rw [hst1]
    split
    · exact makeSpace_indexedDB cfg st item.size now
    · rfl
  have h2 : st2.indexedDB = true := by
    rw [hst2]
    have : ∀ s : CacheState ν, s.indexedDB = st1.indexedDB →
        (if cfg.enableMemoryCache = true then
          { st1 with memoryCache := mapSet st1.memoryCache key item }
        else st1).indexedDB = st1.indexedDB := by
      intro s _
      split <;> rfl
    rw [this st1 rfl, hst1idb, hidb]
  rw [if_pos h2]
  exact ⟨st2, rfl⟩

/-- C7: when the IndexedDB tier is present, a storage failure (quota
exceeded, structured-clone serialization error) raised while `set` writes
the tiers is caught inside the try block and `set` returns false — as an
`Except.ok` value, never a propagated exception; and when the memory tier
misses, a storage error during the IndexedDB read makes `get` return
null (with the state untouched) instead of propagating. -/
theorem C7_storage_error_handling {ν ε : Type} (cfg : CacheConfig ν)
    (st : CacheState ν) (key : String) (value : ν) (ttlOpt : Option Int)
    (typeOpt : Option String) (prioOpt : Option Int) (now : Int) (err : ε)
    (hidb : st.indexedDB = true) :
    setResultFlag (set cfg st key value ttlOpt typeOpt prioOpt now (some err)) =
      some false ∧
    ((if cfg.enableMemoryCache then mapGet st.memoryCache key else none) =
        (none : Option (CacheItem ν)) →
      get cfg st key now (some err) = Except.ok (none, st)) := by
  constructor
  · obtain ⟨st2, hr⟩ :=
      set_some_spec cfg st key value ttlOpt typeOpt prioOpt now err hidb
    rw [hr]
    rfl
  · intro hmiss
    unfold get
    dsimp only
    rw [hmiss]
    unfold getIdbTier
    rw [if_pos hidb]

/-- C7 witness: a quota failure on a fresh cache with the IndexedDB tier
open. -/
theorem C7_storage_error_handling_witness :
    setResultFlag (set cfgC (initialState true) "k" 7 none none none 0
      (some "quota")) = some false ∧
    get cfgC (initialState true) "k" 0 (some "quota") =
      Except.ok (none, initialState true) :=
  ⟨(C7_storage_error_handling cfgC (initialState true) "k" 7 none none none 0
      "quota" rfl).1,
    (C7_storage_error_handling cfgC (initialState true) "k" 7 none none none 0
      "quota" rfl).2 rfl⟩

end CacheManager

namespace CacheManager

/-- C6: the TTL boundary of reads. For an entry written by `set` (and not
deleted or evicted since — nothing else runs between the `set` and the
`get`s here), with the memory tier enabled and the tier writes
succeeding, a `get` issued at `timestamp + ttl - 1` returns the stored
value and a `get` issued at `timestamp + ttl + 1` returns null: an entry
is expired iff `now - timestamp > ttl` and expired entries are treated as
absent on read. -/
theorem C6_ttl_boundary {ν ε : Type} (cfg : CacheConfig ν) (st : CacheState ν)
    (key : String) (value : ν) (ttlOpt : Option Int) (typeOpt : Option String)
    (prioOpt : Option Int) (now : Int) (st' : CacheState ν)
    (hMem : cfg.enableMemoryCache = true)
    (hset : set cfg st key value ttlOpt typeOpt prioOpt now (none : Option ε) =
      Except.ok (true, st')) :
    getValue cfg st' key (now + jsOrInt ttlOpt cfg.defaultTTL - 1)
      (none : Option ε) = some value ∧
    getValue cfg st' key (now + jsOrInt ttlOpt cfg.defaultTTL + 1)
      (none : Option ε) = none := by
  obtain ⟨st'', hrun, hidb, hmem, hidbGet, _, _⟩ :=
    @set_none_spec ν ε cfg st key value ttlOpt typeOpt prioOpt now
  rw [hrun] at hset
  have hsame : st'' = st' := by
    injection hset with h1
    injection h1 with h2 h3
  subst hsame
  have hitem := hmem hMem
  have hitem2 := hitem
  simp only [mkItem] at hitem2
  constructor
  · have hexp : isExpired (now + jsOrInt ttlOpt cfg.defaultTTL - 1)
        (mkItem cfg key value ttlOpt typeOpt prioOpt now) = false := by
      simp only [isExpired, mkItem, decide_eq_false_iff_not]
      omega
    have hexp2 := hexp
    simp only [mkItem] at hexp2
    simp [getValue, get, hMem, hitem2, hexp2]
  · have hexp : isExpired (now + jsOrInt ttlOpt cfg.defaultTTL + 1)
        (mkItem cfg key value ttlOpt typeOpt prioOpt now) = true := by
      simp only [isExpired, mkItem, decide_eq_true_eq]
      omega
    have hexp2 := hexp
    simp only [mkItem] at hexp2
    cases hidb2 : st.indexedDB with
    | true =>
      have hidbGet' := hidbGet hidb2
      simp only [mkItem] at hidbGet'
      have hidb' : st''.indexedDB = true := by rw [hidb, hidb2]
      simp [getValue, get, getIdbTier, hMem, hitem2, hexp2, hidb', hidbGet']
    | false =>
      have hidb' : st''.indexedDB = false := by rw [hidb, hidb2]
      simp [getValue, get, getIdbTier, hMem, hitem2, hexp2, hidb']

/-- The state a `set` call leaves behind (the input state when it threw,
which never happens). -/
def postSet (cfg : CacheConfig ν) (st : CacheState ν) (key : String)
    (value : ν) (ttlOpt : Option Int) (typeOpt : Option String)
    (prioOpt : Option Int) (now : Int) (idbFail : Option ε) : CacheState ν :=
  match set cfg st key value ttlOpt typeOpt prioOpt now idbFail with
  | .ok p => p.2
  | .error _ => st

/-- C6 witness: a fresh cache, `set` at time 0 with ttl 1000, reads at
times 999 and 1001. -/
theorem C6_ttl_boundary_witness :
    getValue cfgC (postSet cfgC (initialState true) "k" 7 (some 1000) none
        none 0 (none : Option String)) "k"
      (0 + jsOrInt (some 1000) cfgC.defaultTTL - 1)
      (none : Option String) = some 7 ∧
    getValue cfgC (postSet cfgC (initialState true) "k" 7 (some 1000) none
        none 0 (none : Option String)) "k"
      (0 + jsOrInt (some 1000) cfgC.defaultTTL + 1)
      (none : Option String) = none :=
  C6_ttl_boundary cfgC (initialState true) "k" 7 (some 1000) none none 0
    (postSet cfgC (initialState true) "k" 7 (some 1000) none none 0
      (none : Option String)) rfl rfl

end CacheManager

namespace CacheManager

/-- C10: a successful `set` that did not trigger space-freeing bumps
`itemCount` by exactly 1 and `currentSize` by the entry's estimated size
unconditionally — there is no key-presence check, so the same holds on an
overwrite; consequently, setting the same key twice on a fresh cache
leaves `itemCount = 2` and `currentSize` at twice the size while the
memory tier holds a single live entry. -/
theorem C10_set_stats_overwrite {ν ε : Type} (cfg : CacheConfig ν)
    (st st' : CacheState ν) (key : String) (value : ν) (ttlOpt : Option Int)
    (typeOpt : Option String) (prioOpt : Option Int) (now : Int)
    (hfull : isStorageFull cfg st (cfg.estimateSize value) = false)
    (hset : set cfg st key value ttlOpt typeOpt prioOpt now (none : Option ε) =
      Except.ok (true, st')) :
    (st'.currentSize = st.currentSize + cfg.estimateSize value ∧
      st'.itemCount = st.itemCount + 1) ∧
    (∀ stA stB : CacheState ν,
      cfg.enableMemoryCache = true →
      isStorageFull cfg (initialState false) (cfg.estimateSize value) = false →
      set cfg (initialState false) key value ttlOpt typeOpt prioOpt now
        (none : Option ε) = Except.ok (true, stA) →
      isStorageFull cfg stA (cfg.estimateSize value) = false →
      set cfg stA key value ttlOpt typeOpt prioOpt now (none : Option ε) =
        Except.ok (true, stB) →
      stB.itemCount = 2 ∧ stB.currentSize = 2 * cfg.estimateSize value ∧
      stB.memoryCache.length = 1) := by
  constructor
  · obtain ⟨st'', hrun, _, _, _, hstats, _⟩ :=
      @set_none_spec ν ε cfg st key value ttlOpt typeOpt prioOpt now
    rw [hrun] at hset
    have hsame : st'' = st' := by
      injection hset with h1
      injection h1 with h2 h3
    subst hsame
    exact hstats hfull
  · intro stA stB hmc hfull0 hsetA hfullA hsetB
    obtain ⟨sA, hrunA, _, _, _, hstatsA, hmemA⟩ :=
      @set_none_spec ν ε cfg (initialState false) key value ttlOpt typeOpt
        prioOpt now
    rw [hrunA] at hsetA
    have hsameA : sA = stA := by
      injection hsetA with h1
      injection h1 with h2 h3
    rw [hsameA] at hstatsA hmemA
    obtain ⟨sB, hrunB, _, _, _, hstatsB, hmemB⟩ :=
      @set_none_spec ν ε cfg stA key value ttlOpt typeOpt prioOpt now
    rw [hrunB] at hsetB
    have hsameB : sB = stB := by
      injection hsetB with h1
      injection h1 with h2 h3
    rw [hsameB] at hstatsB hmemB
    obtain ⟨hszA, hctA⟩ := hstatsA hfull0
    obtain ⟨hszB, hctB⟩ := hstatsB hfullA
    have hmemA' := hmemA hfull0 hmc
    have hmemB' := hmemB hfullA hmc
    refine ⟨?_, ?_, ?_⟩
    · rw [hctB, hctA]
      simp [initialState]
    · rw [hszB, hszA]
      simp [initialState]
      ring
    · rw [hmemB', hmemA']
      simp [initialState, mapSet]

/-- C10 witness: two sets of the same key on a fresh cache. -/
theorem C10_set_stats_overwrite_witness :
    ((postSet cfgC (initialState false) "k" 7 none none none 0
        (none : Option String)).currentSize =
      (initialState false : CacheState Nat).currentSize + cfgC.estimateSize 7 ∧
      (postSet cfgC (initialState false) "k" 7 none none none 0
        (none : Option String)).itemCount =
      (initialState false : CacheState Nat).itemCount + 1) ∧
    ((postSet cfgC (postSet cfgC (initialState false) "k" 7 none none none 0
          (none : Option String)) "k" 7 none none none 0
        (none : Option String)).itemCount = 2 ∧
      (postSet cfgC (postSet cfgC (initialState false) "k" 7 none none none 0
          (none : Option String)) "k" 7 none none none 0
        (none : Option String)).currentSize = 2 * cfgC.estimateSize 7 ∧
      (postSet cfgC (postSet cfgC (initialState false) "k" 7 none none none 0
          (none : Option String)) "k" 7 none none none 0
        (none : Option String)).memoryCache.length = 1) :=
  ⟨(@C10_set_stats_overwrite Nat String cfgC (initialState false)
      (postSet cfgC (initialState false) "k" 7 none none none 0
        (none : Option String)) "k" 7 none none none 0 rfl rfl).1,
    (@C10_set_stats_overwrite Nat String cfgC (initialState false)
      (postSet cfgC (initialState false) "k" 7 none none none 0
        (none : Option String)) "k" 7 none none none 0 rfl rfl).2
      (postSet cfgC (initialState false) "k" 7 none none none 0
        (none : Option String))
      (postSet cfgC (postSet cfgC (initialState false) "k" 7 none none none 0
          (none : Option String)) "k" 7 none none none 0
        (none : Option String))
      rfl rfl rfl rfl rfl⟩

end CacheManager

namespace RealTimeState

/-- A Redux-style action: a plain object with a mandatory `type` tag and
an optional payload of type `π`. -/
structure RTAction (π : Type) where
  type : String
  payload : Option π

/-- One history record: `{timestamp, action, state}` (the state snapshot
taken after the reducer and the timestamp write). -/
structure HistoryEntry (σ π : Type) where
  timestamp : Int
  action : RTAction π
  state : σ

/-- The store. `reduce` is the `reduce` method (the action switch over
the state tree) and `setTimestamp` models the `this.state.timestamp =
Date.now()` write — both are opaque functions of the state type `σ`,
carried as fields so the history mechanics can be stated for every
reducer; `middleware` is the configured middleware chain. DevTools and
persistence are browser collaborators and are not modelled. -/
structure Store (σ π : Type) where
  state : σ
  initialState : σ
  middleware : List (RTAction π → σ → RTAction π)
  reduce : RTAction π → σ → σ
  setTimestamp : σ → Int → σ
  isDispatching : Bool
  history : List (HistoryEntry σ π)
  maxHistorySize : Nat

/-- JavaScript `array.slice(-n)`: the last `n` elements. -/
def takeLast (n : Nat) (l : List α) : List α :=
  l.drop (l.length - n)

/-- The constructor plus `setupHistoryTracking`: state set to the initial
state, `maxHistorySize = 50`, and the history seeded with the `@@INIT`
record. -/
def mkStore (initialState : σ) (middleware : List (RTAction π → σ → RTAction π))
    (reduce : RTAction π → σ → σ) (setTimestamp : σ → Int → σ)
    (now : Int) : Store σ π :=
  { state := initialState
    initialState := initialState
    middleware := middleware
    reduce := reduce
    setTimestamp := setTimestamp
    isDispatching := false
    history := [⟨now, ⟨"@@INIT", none⟩, initialState⟩]
    maxHistorySize := 50 }

/-- `runMiddleware(action)`: thread the action through every middleware
with the pre-dispatch state. -/
def runMiddleware (rt : Store σ π) (a : RTAction π) : RTAction π :=
  rt.middleware.foldl (fun acc mw => mw acc rt.state) a

/-- `dispatch(action)`: reject re-entrant dispatch; otherwise run the
middleware, apply the reducer, stamp the state's timestamp, push the
`{timestamp, action, state}` record and truncate the history to the most
recent `maxHistorySize` entries (`slice(-maxHistorySize)` when the bound
is exceeded). Actions of `RTAction` always carry a `type`, so the
plain-object guards never throw here. -/
def dispatch (rt : Store σ π) (a : RTAction π) (now : Int) :
    Except String (Store σ π) :=
  if rt.isDispatching then Except.error "Reducers may not dispatch actions."
  else
    let processed := runMiddleware rt a
    let newState := rt.setTimestamp (rt.reduce processed rt.state) now
    let hist1 := rt.history ++ [⟨now, processed, newState⟩]
    let hist2 :=
      if hist1.length > rt.maxHistorySize then takeLast rt.maxHistorySize hist1
      else hist1
    Except.ok { rt with state := newState, history := hist2, isDispatching := false }

/-- `resetState(newState)`: replace the state (falling back to the
configured initial state), stamp its timestamp, and reset the history to
the single `@@RESET` record. -/
def resetState (rt : Store σ π) (newState : Option σ) (now : Int) :
    Store σ π :=
  let st := rt.setTimestamp (newState.getD rt.initialState) now
  { rt with
    state := st
    history := [⟨now, ⟨"@@RESET", none⟩, st⟩] }

/-- `timeTravelTo(index)`: restore a historic state snapshot; the history
itself is untouched. -/
def timeTravelTo (rt : Store σ π) (index : Nat) : Store σ π :=
  if h : index < rt.history.length then
    { rt with state := (rt.history.get ⟨index, h⟩).state }
  else rt

/-- One public operation on the store. -/
inductive RTOp (σ π : Type) where
  | dispatchOp (a : RTAction π) (now : Int)
  | resetOp (newState : Option σ) (now : Int)
  | travelOp (index : Nat)

/-- Apply one operation; a rejected dispatch throws before mutating
anything, so the store is unchanged. -/
def applyOp (rt : Store σ π) : RTOp σ π → Store σ π
  | .dispatchOp a now =>
    match dispatch rt a now with
    | .ok rt' => rt'
    | .error _ => rt
  | .resetOp ns now => resetState rt ns now
  | .travelOp i => timeTravelTo rt i

/-- Run a sequence of operations. -/
def runOps (rt : Store σ π) (ops : List (RTOp σ π)) : Store σ π :=
  ops.foldl applyOp rt

end RealTimeState

namespace RealTimeState

theorem dispatch_ok {σ π : Type} (rt : Store σ π) (a : RTAction π) (t : Int)
    (h : rt.isDispatching = false) :
    ∃ rt' : Store σ π,
      dispatch rt a t = Except.ok rt' ∧
      rt'.state = rt.setTimestamp (rt.reduce (runMiddleware rt a) rt.state) t ∧
      rt'.maxHistorySize = rt.maxHistorySize ∧
      rt'.history = takeLast rt.maxHistorySize
        (rt.history ++ [⟨t, runMiddleware rt a,
          rt.setTimestamp (rt.reduce (runMiddleware rt a) rt.state) t⟩]) := by
  unfold dispatch
  rw [if_neg (by simp [h])]
  dsimp only
  refine ⟨_, rfl, rfl, rfl, ?_⟩
  split
  · rfl
  · next hle =>
    unfold takeLast
    rw [Nat.sub_eq_zero_of_le (by omega)]
    simp

theorem applyOp_invariant {σ π : Type} (rt : Store σ π) (op : RTOp σ π)
    (hm : rt.maxHistorySize = 50) (hh : rt.history.length ≤ 50) :
    (applyOp rt op).maxHistorySize = 50 ∧
    (applyOp rt op).history.length ≤ 50 := by
  cases op with
  | dispatchOp a now =>
    simp only [applyOp]
    cases hd : rt.isDispatching with
    | true => simp [dispatch, hd, hm, hh]
    | false =>
      obtain ⟨rt', hdok, _, hmax, hhist⟩ := dispatch_ok rt a now hd
      rw [hdok]
      dsimp only
      constructor
      · rw [hmax, hm]
      · rw [hhist, hm]
        unfold takeLast
        rw [List.length_drop]
        omega
  | resetOp ns now =>
    simp only [applyOp, resetState]
    exact ⟨hm, by simp⟩
  | travelOp i =>
    simp only [applyOp, timeTravelTo]
    split
    · exact ⟨hm, hh⟩
    · exact ⟨hm, hh⟩

theorem runOps_invariant {σ π : Type} (ops : List (RTOp σ π)) :
    ∀ rt : Store σ π, rt.maxHistorySize = 50 → rt.history.length ≤ 50 →
      (runOps rt ops).maxHistorySize = 50 ∧
      (runOps rt ops).history.length ≤ 50 := by
  induction ops with
  | nil =>
    intro rt hm hh
    exact ⟨hm, hh⟩
  | cons op t ih =>
    intro rt hm hh
    have h1 := applyOp_invariant rt op hm hh
    simp only [runOps, List.foldl_cons]
    exact ih (applyOp rt op) h1.1 h1.2

/-- C9: the history is bounded. After any sequence of `dispatch`,
`resetState` and `timeTravelTo` operations from a fresh store, the
history holds at most 50 entries; and every (non-reentrant) dispatch
appends one `{timestamp, action, resulting state}` record and keeps the
most recent `maxHistorySize` (= 50) entries, discarding the oldest when
the bound is exceeded. -/
theorem C9_history_bounded {σ π : Type} (initialState : σ)
    (middleware : List (RTAction π → σ → RTAction π))
    (reduce : RTAction π → σ → σ) (setTimestamp : σ → Int → σ)
    (now0 : Int) (ops : List (RTOp σ π)) :
    (runOps (mkStore initialState middleware reduce setTimestamp now0)
      ops).history.length ≤ 50 ∧
    (∀ (rt : Store σ π) (a : RTAction π) (t : Int),
      rt.isDispatching = false →
      ∃ (rt' : Store σ π) (e : HistoryEntry σ π),
        dispatch rt a t = Except.ok rt' ∧
        e.timestamp = t ∧
        e.action = runMiddleware rt a ∧
        e.state = rt'.state ∧
        rt'.history = takeLast rt.maxHistorySize (rt.history ++ [e])) := by
  constructor
  · exact (runOps_invariant ops
      (mkStore initialState middleware reduce setTimestamp now0) rfl
      (by simp [mkStore])).2
  · intro rt a t h
    obtain ⟨rt', hd, hstate, hmax, hhist⟩ := dispatch_ok rt a t h
    exact ⟨rt',
      ⟨t, runMiddleware rt a,
        rt.setTimestamp (rt.reduce (runMiddleware rt a) rt.state) t⟩,
      hd, rfl, rfl, hstate.symm, hhist⟩

/-- C9 witness: one dispatch on a fresh store over `Nat` state. -/
theorem C9_history_bounded_witness :
    (runOps (mkStore (0 : Nat) [] (fun _ s => s + 1) (fun s _ => s) 0)
      [RTOp.dispatchOp ⟨"A", (none : Option Nat)⟩ 1]).history.length ≤ 50 :=
  (C9_history_bounded 0 [] (fun _ s => s + 1) (fun s _ => s) 0
    [RTOp.dispatchOp ⟨"A", (none : Option Nat)⟩ 1]).1

end RealTimeState
